import Mathlib

/-!
H.264 NAL metadata parser (`src/h264_parser.c`)

A shallow embedding of the bit reader, the Exp-Golomb decoder, the RBSP
de-escaper, the SPS field parser and the RTP dispatcher, followed by theorems
about them.

Conventions of the embedding

* A buffer (`uint8_t *`) is a `List Nat` of bytes; pointer arithmetic
  `p + k` is `List.drop k`.
* A C execution that has no defined result (a read outside the buffer, a
  shift by 32 or more, a loop that never ends) is `none`.
* `uint32_t` arithmetic is `Nat` arithmetic reduced by `u32`; `int`
  arithmetic is `Int` arithmetic reduced by `i32` (two's complement wrap).
* An output pointer is an `Option`: `none` is the NULL pointer, `some v` a
  valid pointer to a location that currently holds `v`.
-/

namespace H264

/-! ## Machine integers -/

/-- Reduction of a natural number to `uint32_t`. -/
@[irreducible] def u32 (x : Nat) : Nat := x % 2 ^ 32

/-- Reduction of an integer to a 32-bit two's complement `int`. -/
@[irreducible] def i32 (x : Int) : Int := (x + 2 ^ 31) % 2 ^ 32 - 2 ^ 31

/-! ## Bit reader -/

/-- The C function `h264_eg_getbit`:
`((*(base + (offset >> 3))) >> (7 - (offset & 7))) & 1`. -/
def h264_eg_getbit (base : List Nat) (offset : Nat) : Option Nat :=
  match base[offset >>> 3]? with
  | none => none
  | some b => some ((b >>> (7 - (offset &&& 7))) &&& 1)

/-- The loop `while (h264_eg_getbit(base, (*offset)++) == 0) zeros++;` of
`h264_eg_decode`, over the bit reader `bit`; returns the cursor and `zeros`. -/
def eg_zeros (bit : Nat → Option Nat) : Nat → Nat → Nat → Option (Nat × Nat)
  | 0, _, _ => none
  | fuel + 1, offset, zeros =>
    match bit offset with
    | none => none
    | some b =>
      if b = 0 then eg_zeros bit fuel (u32 (offset + 1)) (u32 (zeros + 1))
      else some (u32 (offset + 1), zeros)

/-- The loop `for (i = n - 1; i >= 0; i--) res |= h264_eg_getbit(base, (*offset)++) << i;`
shared by `h264_eg_getbits` and `h264_eg_decode`; the first argument is the
number `n` of iterations left (`i + 1`). Returns the cursor and `res`. -/
def eg_bits (bit : Nat → Option Nat) : Nat → Nat → Nat → Option (Nat × Nat)
  | 0, offset, res => some (offset, res)
  | i + 1, offset, res =>
    match bit offset with
    | none => none
    | some b =>
      if 32 ≤ i then none
      else eg_bits bit i (u32 (offset + 1)) (res ||| u32 (b <<< i))

/-- The body of `h264_eg_decode` over the bit reader `bit`. The cursor is a
`uint32_t`, so the first loop sees at most `2 ^ 32` distinct cursors: that
many iterations without a 1 bit is an endless loop. `1 << zeros` shifts an
`int`: for `zeros = 31` it is taken as `0x80000000` (what two's complement
compilers produce), for `zeros ≥ 32` it is undefined. Returns the decoded
value and the cursor. -/
def eg_decode_core (bit : Nat → Option Nat) (offset : Nat) : Option (Nat × Nat) :=
  match eg_zeros bit (2 ^ 32) offset 0 with
  | none => none
  | some (offset1, zeros) =>
    if 32 ≤ zeros then none
    else
      match eg_bits bit zeros offset1 (u32 (1 <<< zeros)) with
      | none => none
      | some (offset2, res) => some (u32 (res + 2 ^ 32 - 1), offset2)

/-- The C function `h264_eg_getbits`; returns the value and the cursor. -/
def h264_eg_getbits (base : List Nat) (offset : Nat) (num : Int) : Option (Nat × Nat) :=
  match eg_bits (h264_eg_getbit base) num.toNat offset 0 with
  | none => none
  | some (offset1, res) => some (res, offset1)

/-- The C function `h264_eg_decode`; returns the value and the cursor. -/
def h264_eg_decode (base : List Nat) (offset : Nat) : Option (Nat × Nat) :=
  eg_decode_core (h264_eg_getbit base) offset

/-! ## RBSP de-escaper -/

/-- The test `length - i >= 3 && data[i] == 0 && data[i + 1] == 0 && data[i + 2] == 3`
of `h264_parse_rbsp`, with C's left-to-right short-circuit evaluation. -/
def rbsp_is_escape (data : List Nat) (length i : Nat) : Option Bool :=
  if length - i ≥ 3 then
    match data[i]? with
    | none => none
    | some b0 =>
      if b0 = 0 then
        match data[i + 1]? with
        | none => none
        | some b1 =>
          if b1 = 0 then
            match data[i + 2]? with
            | none => none
            | some b2 => some (decide (b2 = 3))
          else some false
      else some false
  else some false

/-- The loop `for (size_t i = 0; i < length;)` of `h264_parse_rbsp`; `out` is
`rbsp_buffer[0 .. rbsp_len)`. -/
def rbsp_loop (data : List Nat) (length : Nat) : Nat → Nat → List Nat → Option (List Nat)
  | 0, _, _ => none
  | fuel + 1, i, out =>
    if i < length then
      match rbsp_is_escape data length i with
      | none => none
      | some true =>
        match data[i]?, data[i + 1]? with
        | some b0, some b1 => rbsp_loop data length fuel (i + 3) (out ++ [b0, b1])
        | _, _ => none
      | some false =>
        match data[i]? with
        | some b0 => rbsp_loop data length fuel (i + 1) (out ++ [b0])
        | none => none
    else some out

/-- The C function `h264_parse_rbsp`; the result is `rbsp_buffer[0 .. *outlen)`.
Every iteration advances `i`, so `length + 1` steps always suffice. -/
def h264_parse_rbsp (data : List Nat) (length : Nat) : Option (List Nat) :=
  rbsp_loop data length (length + 1) 0 []

/-! ## SPS field parser -/

/-- The statement `if (p) *p = v;` on an output pointer. -/
def store {α : Type} (p : Option α) (v : α) : Option α :=
  match p with
  | none => none
  | some _ => some v

/-- The three output pointers of `h264_parse_sps`. -/
structure SpsPtrs where
  p_width : Option Int
  p_height : Option Int
  p_sps_id : Option Nat
  deriving DecidableEq, Repr

/-- The call `h264_eg_getbit(base, offset++)`; returns the bit and the cursor. -/
def getbit_inc (base : List Nat) (offset : Nat) : Option (Nat × Nat) :=
  match h264_eg_getbit base offset with
  | none => none
  | some b => some (b, u32 (offset + 1))

/-- The loop `for (i = 0; i < num_ref_frames_in_pic_order_cnt_cycle; i++) h264_eg_decode(base, &offset);`
with `n` iterations left; returns the cursor. -/
def sps_skip_ref_frames (base : List Nat) : Nat → Nat → Option Nat
  | 0, offset => some offset
  | n + 1, offset =>
    match h264_eg_decode base offset with
    | none => none
    | some (_, offset1) => sps_skip_ref_frames base n offset1

/-- The block `if (profile_idc != 66) { ... }` of `h264_parse_sps` (lines 97-133).
`some none` is `return false`; `some (some (c, s, o))` continues with
`chroma_format_idc = c`, `separate_colour_plane_flag = s` and cursor `o`.
The local `seq_scaling_list_present_flags` is declared without an initialiser
and never assigned (the value of `h264_eg_getbits` is dropped), so the value
it holds when tested is an argument of the model. -/
def sps_profile (seq_scaling_list_present_flags : Nat) (profile_idc : Nat)
    (base : List Nat) (offset : Nat) : Option (Option (Nat × Nat × Nat)) :=
  if profile_idc ≠ 66 then
    if profile_idc = 100 ∨ profile_idc = 110 ∨ profile_idc = 122 ∨
        profile_idc = 244 ∨ profile_idc = 44 ∨ profile_idc = 83 ∨
        profile_idc = 86 ∨ profile_idc = 118 ∨ profile_idc = 128 ∨
        profile_idc = 138 ∨ profile_idc = 139 ∨ profile_idc = 134 then
      -- chroma_format_idc: ue(v)
      match h264_eg_decode base offset with
      | none => none
      | some (chroma_format_idc, offset1) =>
      -- separate_colour_plane_flag: u(1)
      match (if chroma_format_idc = 3 then getbit_inc base offset1 else some (0, offset1)) with
      | none => none
      | some (separate_colour_plane_flag, offset2) =>
      -- bit_depth_luma_minus8: ue(v)
      match h264_eg_decode base offset2 with
      | none => none
      | some (_, offset3) =>
      -- bit_depth_chroma_minus8: ue(v)
      match h264_eg_decode base offset3 with
      | none => none
      | some (_, offset4) =>
      -- qpprime_y_zero_transform_bypass_flag: u(1)
      match getbit_inc base offset4 with
      | none => none
      | some (_, offset5) =>
      -- seq_scaling_matrix_present_flag: u(1)
      match getbit_inc base offset5 with
      | none => none
      | some (seq_scaling_matrix_present_flag, offset6) =>
      if seq_scaling_matrix_present_flag ≠ 0 then
        match (if chroma_format_idc ≠ 3 then h264_eg_getbits base offset6 8
               else h264_eg_getbits base offset6 12) with
        | none => none
        | some (_, offset7) =>
          if seq_scaling_list_present_flags > 0 then some none
          else some (some (chroma_format_idc, separate_colour_plane_flag, offset7))
      else some (some (chroma_format_idc, separate_colour_plane_flag, offset6))
    else some none
  else some (some (1, 0, offset))

/-- The branch `pic_order_cnt_type == 1` of `h264_parse_sps` (lines 141-152);
returns the cursor. -/
def sps_pic_order_cnt_1 (base : List Nat) (offset : Nat) : Option Nat :=
  match getbit_inc base offset with
  | none => none
  | some (_, offset1) =>
  match h264_eg_decode base offset1 with
  | none => none
  | some (_, offset2) =>
  match h264_eg_decode base offset2 with
  | none => none
  | some (_, offset3) =>
  match h264_eg_decode base offset3 with
  | none => none
  | some (n, offset4) =>
    sps_skip_ref_frames base (i32 (n : Int)).toNat offset4

/-- Lines 136-152 of `h264_parse_sps`: `pic_order_cnt_type` (an `int`) and the
fields that depend on it; returns the cursor. -/
def sps_pic_order_cnt (base : List Nat) (offset : Nat) : Option Nat :=
  match h264_eg_decode base offset with
  | none => none
  | some (pic_order_cnt_type, offset1) =>
    if i32 (pic_order_cnt_type : Int) = 0 then
      match h264_eg_decode base offset1 with
      | none => none
      | some (_, offset2) => some offset2
    else if i32 (pic_order_cnt_type : Int) = 1 then sps_pic_order_cnt_1 base offset1
    else some offset1

/-- Lines 167-175 of `h264_parse_sps`: `frame_cropping_flag` and the four
offsets (left, right, top, bottom) as `int`; returns them with the cursor. -/
def sps_cropping (base : List Nat) (offset : Nat) : Option (Int × Int × Int × Int × Nat) :=
  match getbit_inc base offset with
  | none => none
  | some (frame_cropping_flag, offset1) =>
    if frame_cropping_flag ≠ 0 then
      match h264_eg_decode base offset1 with
      | none => none
      | some (l, offset2) =>
      match h264_eg_decode base offset2 with
      | none => none
      | some (r, offset3) =>
      match h264_eg_decode base offset3 with
      | none => none
      | some (t, offset4) =>
      match h264_eg_decode base offset4 with
      | none => none
      | some (b, offset5) => some (i32 l, i32 r, i32 t, i32 b, offset5)
    else some (0, 0, 0, 0, offset1)

/-- Lines 179-191 of `h264_parse_sps`: the scaling of the cropping offsets;
takes and returns (left, right, top, bottom). -/
def sps_scale_crop (separate_colour_plane_flag chroma_format_idc : Nat)
    (frame_mbs_only_flag : Int) (crop : Int × Int × Int × Int) : Int × Int × Int × Int :=
  let (l, r, t, b) := crop
  if separate_colour_plane_flag ≠ 0 ∨ chroma_format_idc = 0 then
    let b1 := i32 (b * i32 (2 - frame_mbs_only_flag))
    let t1 := i32 (t * i32 (2 - frame_mbs_only_flag))
    (l, r, t1, b1)
  else if separate_colour_plane_flag = 0 ∧ chroma_format_idc > 0 then
    let (l1, r1) :=
      if chroma_format_idc = 1 ∨ chroma_format_idc = 2 then (i32 (l * 2), i32 (r * 2))
      else (l, r)
    let (t1, b1) :=
      if chroma_format_idc = 1 then (i32 (t * 2), i32 (b * 2))
      else (t, b)
    (l1, r1, t1, b1)
  else (l, r, t, b)

/-- Line 195 of `h264_parse_sps`:
`((pic_width_in_mbs_minus1 + 1) * 16) - (frame_crop_left_offset + frame_crop_right_offset)` in `int`. -/
def sps_width (pic_width_in_mbs_minus1 l r : Int) : Int :=
  i32 (i32 (i32 (pic_width_in_mbs_minus1 + 1) * 16) - i32 (l + r))

/-- Line 197 of `h264_parse_sps`:
`((2 - frame_mbs_only_flag) * (pic_height_in_map_units_minus1 + 1) * 16) - (frame_crop_top_offset + frame_crop_bottom_offset)`
in `int`. -/
def sps_height (frame_mbs_only_flag pic_height_in_map_units_minus1 t b : Int) : Int :=
  i32 (i32 (i32 (i32 (2 - frame_mbs_only_flag) * i32 (pic_height_in_map_units_minus1 + 1)) * 16)
    - i32 (t + b))

/-- Lines 134-198 of `h264_parse_sps`: everything after the profile block. -/
def sps_fields (base : List Nat) (chroma_format_idc separate_colour_plane_flag offset : Nat)
    (out : SpsPtrs) : Option (Bool × SpsPtrs) :=
  -- log2_max_frame_num_minus4
  match h264_eg_decode base offset with
  | none => none
  | some (_, offset1) =>
  match sps_pic_order_cnt base offset1 with
  | none => none
  | some offset2 =>
  -- max_num_ref_frames
  match h264_eg_decode base offset2 with
  | none => none
  | some (_, offset3) =>
  -- gaps_in_frame_num_value_allowed_flag
  match getbit_inc base offset3 with
  | none => none
  | some (_, offset4) =>
  match h264_eg_decode base offset4 with
  | none => none
  | some (pic_width_in_mbs_minus1, offset5) =>
  match h264_eg_decode base offset5 with
  | none => none
  | some (pic_height_in_map_units_minus1, offset6) =>
  match getbit_inc base offset6 with
  | none => none
  | some (frame_mbs_only_flag, offset7) =>
  -- mb_adaptive_frame_field_flag, read when `!frame_mbs_only_flag` (the flag is a bit, 0 or 1)
  match (if frame_mbs_only_flag = 0 then getbit_inc base offset7 else some (0, offset7)) with
  | none => none
  | some (_, offset8) =>
  -- direct_8x8_inference_flag
  match getbit_inc base offset8 with
  | none => none
  | some (_, offset9) =>
  match sps_cropping base offset9 with
  | none => none
  | some (l, r, t, b, offset10) =>
  -- vui_parameters_present_flag
  match getbit_inc base offset10 with
  | none => none
  | some (_, _) =>
    some (true,
      { out with
        p_width := store out.p_width (sps_width (i32 (pic_width_in_mbs_minus1 : Int))
          (sps_scale_crop separate_colour_plane_flag chroma_format_idc
            (i32 (frame_mbs_only_flag : Int)) (l, r, t, b)).1
          (sps_scale_crop separate_colour_plane_flag chroma_format_idc
            (i32 (frame_mbs_only_flag : Int)) (l, r, t, b)).2.1),
        p_height := store out.p_height (sps_height (i32 (frame_mbs_only_flag : Int))
          (i32 (pic_height_in_map_units_minus1 : Int))
          (sps_scale_crop separate_colour_plane_flag chroma_format_idc
            (i32 (frame_mbs_only_flag : Int)) (l, r, t, b)).2.2.1
          (sps_scale_crop separate_colour_plane_flag chroma_format_idc
            (i32 (frame_mbs_only_flag : Int)) (l, r, t, b)).2.2.2) })

/-- The C function `h264_parse_sps`. The first argument is the indeterminate
content of the uninitialised local `seq_scaling_list_present_flags`; `out`
holds the three output pointers, and the result is the returned flag with
the pointers' contents after the call. -/
def h264_parse_sps (seq_scaling_list_present_flags : Nat) (buffer : List Nat) (length : Nat)
    (out : SpsPtrs) : Option (Bool × SpsPtrs) :=
  let _rbsp_len := length
  match buffer[1]? with
  | none => none
  | some profile_idc =>
    let base := buffer.drop 4
    match h264_eg_decode base 0 with
    | none => none
    | some (sps_id, offset) =>
      let out1 := { out with p_sps_id := store out.p_sps_id sps_id }
      match sps_profile seq_scaling_list_present_flags profile_idc base offset with
      | none => none
      | some none => some (false, out1)
      | some (some (chroma_format_idc, separate_colour_plane_flag, offset1)) =>
        sps_fields base chroma_format_idc separate_colour_plane_flag offset1 out1

/-! ## RTP dispatcher -/

/-- The four output pointers of `parse_rtp_video`. -/
structure RtpPtrs where
  p_rtp_type : Option Nat
  p_width : Option Int
  p_height : Option Int
  p_sps_id : Option Nat
  deriving DecidableEq, Repr

/-- The locals `bfind`, `width`, `height`, `sps_id` of `parse_rtp_video`. -/
structure RtpLocals where
  bfind : Bool
  width : Int
  height : Int
  sps_id : Nat
  deriving DecidableEq, Repr

/-- The statement `bfind = h264_parse_sps(buffer, length, &width, &height, &sps_id);`. -/
def rtp_call_sps (seq_scaling_list_present_flags : Nat) (buffer : List Nat) (length : Nat)
    (st : RtpLocals) : Option RtpLocals :=
  match h264_parse_sps seq_scaling_list_present_flags buffer length
      ⟨some st.width, some st.height, some st.sps_id⟩ with
  | none => none
  | some (ret, p) =>
    some ⟨ret, p.p_width.getD st.width, p.p_height.getD st.height, p.p_sps_id.getD st.sps_id⟩

/-- The loop `while (tot > 0) { ... }` of `parse_rtp_video` (lines 222-234).
`k` counts the records visited so far and `garbage k` is the indeterminate
value seen by the call of `h264_parse_sps` on record `k`. Every iteration
lowers `tot` by at least 2, so `fuel > tot` always suffices. -/
def rtp_stap_loop (garbage : Nat → Nat) : Nat → Nat → Int → List Nat → RtpLocals → Option RtpLocals
  | 0, _, _, _, _ => none
  | fuel + 1, k, tot, buffer, st =>
    if tot > 0 then
      match buffer[0]?, buffer[1]? with
      | some b0, some b1 =>
        let psize := ((b0 <<< 8) + b1) % 65536
        let buffer1 := buffer.drop 2
        let tot1 := i32 (tot - 2)
        match buffer1[0]? with
        | none => none
        | some t =>
          let nal_type := t &&& 0x1f
          match (if nal_type = 7 then rtp_call_sps (garbage k) buffer1 psize st else some st) with
          | none => none
          | some st1 =>
            rtp_stap_loop garbage fuel (k + 1) (i32 (tot1 - psize)) (buffer1.drop psize) st1
      | _, _ => none
    else some st

/-- The C function `parse_rtp_video`. `garbage` gives the indeterminate content
of the uninitialised local of `h264_parse_sps` at each of its calls; `out`
holds the four output pointers, and the result is the returned flag with the
pointers' contents after the call. -/
def parse_rtp_video (garbage : Nat → Nat) (nal_data : List Nat) (nal_size : Nat)
    (out : RtpPtrs) : Option (Bool × RtpPtrs) :=
  if nal_size < 4 ∨ nal_size ≥ 1500 then some (false, out)
  else
    match nal_data[0]? with
    | none => none
    | some b =>
      let nal_type := b &&& 0x1f
      let out1 := { out with p_rtp_type := store out.p_rtp_type nal_type }
      let st0 : RtpLocals := ⟨false, 0, 0, 32⟩
      match (if nal_type = 7 then rtp_call_sps (garbage 0) nal_data nal_size st0
             else if nal_type = 24 then
               rtp_stap_loop garbage nal_size 0 (i32 ((nal_size : Int) - 1)) (nal_data.drop 1) st0
             else some st0) with
      | none => none
      | some st =>
        if st.bfind = true ∧ out1.p_width.isSome = true ∧ out1.p_height.isSome = true then
          some (st.bfind, { out1 with p_width := some st.width, p_height := some st.height,
                                      p_sps_id := store out1.p_sps_id st.sps_id })
        else some (st.bfind, out1)

/-! ## Description of the inputs -/

/-- The `n` low bits of `x`, most significant first. -/
def msb_bits : Nat → Nat → List Nat
  | 0, _ => []
  | n + 1, x => (x / 2 ^ n) % 2 :: msb_bits n x

/-- The value of a bit string read most significant bit first. -/
def msb_value : List Nat → Nat
  | [] => 0
  | b :: bs => b * 2 ^ bs.length + msb_value bs

/-- Halving `n` until it is below 2, at most `fuel` times, and counting. -/
def log2_floor_aux : Nat → Nat → Nat
  | 0, _ => 0
  | fuel + 1, n => if n < 2 then 0 else log2_floor_aux fuel (n / 2) + 1

/-- The integer `floor(log2 n)` for `n ≥ 1`, by repeated halving. -/
def log2_floor (n : Nat) : Nat := log2_floor_aux n n

/-- The standard unsigned Exp-Golomb code of `v`: `k = floor(log2(v + 1))` zero
bits, then the `k + 1` bits of `v + 1`, most significant first. -/
def ue (v : Nat) : List Nat :=
  List.replicate (log2_floor (v + 1)) 0 ++ msb_bits (log2_floor (v + 1) + 1) (v + 1)

/-- The reader `bit` holds the bit string `bs` from cursor `o` on: every one of
those bits can be read and has the listed value. -/
def Holds (bit : Nat → Option Nat) : Nat → List Nat → Prop
  | _, [] => True
  | o, b :: bs => bit o = some b ∧ Holds bit (o + 1) bs

instance Holds.decide (bit : Nat → Option Nat) : (o : Nat) → (bs : List Nat) → Decidable (Holds bit o bs)
  | _, [] => isTrue trivial
  | o, b :: bs =>
    match decEq (bit o) (some b), Holds.decide bit (o + 1) bs with
    | isTrue h1, isTrue h2 => isTrue ⟨h1, h2⟩
    | isFalse h1, _ => isFalse (fun h => h1 h.1)
    | _, isFalse h2 => isFalse (fun h => h2 h.2)

/-- Position `i` of `data` holds the three bytes `00 00 03`. -/
def rbsp_escape_at (data : List Nat) (i : Nat) : Bool :=
  data[i]? == some 0 && data[i + 1]? == some 0 && data[i + 2]? == some 3

/-- The number of positions at which `data` holds the three bytes `00 00 03`. -/
def rbsp_escape_count (data : List Nat) : Nat :=
  (List.range data.length).countP (rbsp_escape_at data)

/-- The bytes of `data` in order, without the `03` byte of each `00 00 03`:
the byte at position `j` is dropped exactly when `00 00 03` sits at `j - 2`. -/
def rbsp_strip (data : List Nat) : List Nat :=
  (List.range data.length).filterMap
    (fun j => if 2 ≤ j ∧ rbsp_escape_at data (j - 2) = true then none else data[j]?)

/-- The reader in which only the bits at cursors in `[lo, hi)` can be read. -/
def bit_window (bit : Nat → Option Nat) (lo hi : Nat) : Nat → Option Nat :=
  fun k => if lo ≤ k ∧ k < hi then bit k else none

/-- The reader of `base` holds the bit string `bs` from cursor `o` on, and the
cursor stays a `uint32_t` over all of it. -/
def Stream (base : List Nat) (o : Nat) (bs : List Nat) : Prop :=
  Holds (h264_eg_getbit base) o bs ∧ o + bs.length < 2 ^ 32

/-- The fields of an SPS that depend on `pic_order_cnt_type`, as code numbers
of their Exp-Golomb codes. -/
inductive PocFields where
  /-- Type 0: `pic_order_cnt_type = 0`, with `log2_max_pic_order_cnt_lsb_minus4`. -/
  | type0 (log2_max_pic_order_cnt_lsb_minus4 : Nat)
  /-- Type 1: `pic_order_cnt_type = 1`, with `delta_pic_order_always_zero_flag`,
  `offset_for_non_ref_pic`, `offset_for_top_to_bottom_field` and the
  `num_ref_frames_in_pic_order_cnt_cycle` entries `offset_for_ref_frame`. -/
  | type1 (delta_pic_order_always_zero_flag offset_for_non_ref_pic
      offset_for_top_to_bottom_field : Nat) (offset_for_ref_frame : List Nat)
  /-- Any other `pic_order_cnt_type`, with no dependent field. -/
  | other (pic_order_cnt_type : Nat)

/-- The bits of `pic_order_cnt_type` and its dependent fields. -/
def PocFields.bits : PocFields → List Nat
  | .type0 l => ue 0 ++ ue l
  | .type1 d a b offs =>
    ue 1 ++ d :: (ue a ++ (ue b ++ (ue offs.length ++ (offs.map ue).flatten)))
  | .other p => ue p

/-- Every code number is at most `2 ^ 32 - 2`, an `other` type is at least 2,
and the count of `offset_for_ref_frame` entries is a non-negative `int`. -/
def PocFields.Valid : PocFields → Prop
  | .type0 l => l ≤ 2 ^ 32 - 2
  | .type1 _ a b offs =>
    a ≤ 2 ^ 32 - 2 ∧ b ≤ 2 ^ 32 - 2 ∧ offs.length < 2 ^ 31 ∧ ∀ x ∈ offs, x ≤ 2 ^ 32 - 2
  | .other p => 2 ≤ p ∧ p ≤ 2 ^ 32 - 2

/-- The bits of `frame_mbs_only_flag`, followed by
`mb_adaptive_frame_field_flag` when the flag is 0. -/
def frame_bits (frame_mbs_only_flag mb_adaptive_frame_field_flag : Nat) : List Nat :=
  if frame_mbs_only_flag = 0 then [0, mb_adaptive_frame_field_flag] else [frame_mbs_only_flag]

/-- The bits of `frame_cropping_flag`: 0, or 1 followed by the codes of the
left, right, top and bottom offsets. -/
def crop_bits : Option (Nat × Nat × Nat × Nat) → List Nat
  | none => [0]
  | some (l, r, t, b) => 1 :: (ue l ++ (ue r ++ (ue t ++ ue b)))

/-- The four cropping offsets as the `int` locals of `h264_parse_sps`: all 0
when `frame_cropping_flag = 0`. -/
def crop_ints : Option (Nat × Nat × Nat × Nat) → Int × Int × Int × Int
  | none => (0, 0, 0, 0)
  | some (l, r, t, b) => (i32 l, i32 r, i32 t, i32 b)

/-- Every cropping offset is a code number, at most `2 ^ 32 - 2`. -/
def CropValid : Option (Nat × Nat × Nat × Nat) → Prop
  | none => True
  | some (l, r, t, b) => l ≤ 2 ^ 32 - 2 ∧ r ≤ 2 ^ 32 - 2 ∧ t ≤ 2 ^ 32 - 2 ∧ b ≤ 2 ^ 32 - 2

/-- The bits of an SPS from `log2_max_frame_num_minus4` to
`vui_parameters_present_flag`. -/
def sps_tail_bits (log2_max_frame_num_minus4 : Nat) (poc : PocFields)
    (max_num_ref_frames gaps w h frame_mbs_only_flag mbaff direct_8x8 : Nat)
    (crop : Option (Nat × Nat × Nat × Nat)) (vui : Nat) : List Nat :=
  ue log2_max_frame_num_minus4 ++ (poc.bits ++ (ue max_num_ref_frames ++ gaps :: (ue w ++ (ue h ++
    (frame_bits frame_mbs_only_flag mbaff ++ direct_8x8 :: (crop_bits crop ++ [vui]))))))

/-- The bit-packed fields of a baseline-profile SPS with `frame_mbs_only_flag = 1`
and `frame_cropping_flag = 0`, from `seq_parameter_set_id` on. -/
def baseline_bits (sps_id log2_max_frame_num_minus4 : Nat) (poc : PocFields)
    (max_num_ref_frames gaps w h direct_8x8 vui : Nat) : List Nat :=
  ue sps_id ++ sps_tail_bits log2_max_frame_num_minus4 poc max_num_ref_frames gaps w h 1 0
    direct_8x8 none vui

/-! ## Profile block and cropping, as the claims describe them -/

/-- The fields of the profile block of an SPS (lines 97-133), as code numbers
and bits. -/
inductive ProfileFields where
  /-- Baseline: `profile_idc = 66`, the block holds no field. -/
  | baseline
  /-- Extended profile: `chroma_format_idc`, `separate_colour_plane_flag`
  (present when `chroma_format_idc = 3`), the two bit depths,
  `qpprime_y_zero_transform_bypass_flag`, and the scaling-list-present flag
  bits when `seq_scaling_matrix_present_flag = 1` (`none` when it is 0). -/
  | extended (chroma_format_idc separate_colour_plane_flag bit_depth_luma_minus8
      bit_depth_chroma_minus8 qpprime_flag : Nat) (scaling_flags : Option (List Nat))

/-- The bits of `seq_scaling_matrix_present_flag`: 0, or 1 followed by the
scaling-list-present flag bits. -/
def scaling_bits : Option (List Nat) → List Nat
  | none => [0]
  | some fl => 1 :: fl

/-- The bits of the profile block. -/
def ProfileFields.bits : ProfileFields → List Nat
  | .baseline => []
  | .extended c s bl bc q sc =>
    ue c ++ ((if c = 3 then [s] else []) ++ (ue bl ++ (ue bc ++ q :: scaling_bits sc)))

/-- The `chroma_format_idc` in force after the profile block (1 for baseline). -/
def ProfileFields.chroma : ProfileFields → Nat
  | .baseline => 1
  | .extended c _ _ _ _ _ => c

/-- The `separate_colour_plane_flag` in force after the profile block (0 unless read). -/
def ProfileFields.colour_plane : ProfileFields → Nat
  | .baseline => 0
  | .extended c s _ _ _ _ => if c = 3 then s else 0

/-- The profile block fits `profile_idc`: 66 for baseline, one of the 12
extended values otherwise, code numbers at most `2 ^ 32 - 2`, the flag a bit,
8 flag bits (12 when `chroma_format_idc = 3`), and, when the flag bits are
present, the untested local `seq_scaling_list_present_flags` holding 0. -/
def ProfileFields.Valid (profile_idc seq_scaling_list_present_flags : Nat) : ProfileFields → Prop
  | .baseline => profile_idc = 66
  | .extended c s bl bc _ sc =>
    profile_idc ∈ [100, 110, 122, 244, 44, 83, 86, 118, 128, 138, 139, 134] ∧
    c ≤ 2 ^ 32 - 2 ∧ s ≤ 1 ∧ bl ≤ 2 ^ 32 - 2 ∧ bc ≤ 2 ^ 32 - 2 ∧
    (match sc with
      | none => True
      | some fl => fl.length = (if c ≠ 3 then 8 else 12) ∧ seq_scaling_list_present_flags = 0)

/-- The four decoded cropping offsets (left, right, top, bottom): all 0 when
`frame_cropping_flag = 0`. -/
def crop_nats : Option (Nat × Nat × Nat × Nat) → Nat × Nat × Nat × Nat
  | none => (0, 0, 0, 0)
  | some c => c

/-- The scaled cropping offsets `(L, R, T, B)`: if `s = 1` or `c = 0` then
`(l, r, t * (2 - f), b * (2 - f))`; else if `c = 1` then `(2l, 2r, 2t, 2b)`;
else if `c = 2` then `(2l, 2r, t, b)`; else unscaled. -/
def scaled_crop (s c f : Nat) (crop : Nat × Nat × Nat × Nat) : Nat × Nat × Nat × Nat :=
  if s = 1 ∨ c = 0 then (crop.1, crop.2.1, crop.2.2.1 * (2 - f), crop.2.2.2 * (2 - f))
  else if c = 1 then (2 * crop.1, 2 * crop.2.1, 2 * crop.2.2.1, 2 * crop.2.2.2)
  else if c = 2 then (2 * crop.1, 2 * crop.2.1, crop.2.2.1, crop.2.2.2)
  else crop

/-- Bit `k` of a buffer: bit `7 - k mod 8` of byte `k div 8` (0 outside the buffer). -/
def bit_at (base : List Nat) (k : Nat) : Nat :=
  (base.getD (k / 8) 0 / 2 ^ (7 - k % 8)) % 2

/-! ## PPS field parser -/

/-- The C function `h264_parse_pps`; `p_pps_id` and `p_sps_id` are the two
output pointers, and the result is the returned flag with their contents after
the call. -/
def h264_parse_pps (data : List Nat) (length : Nat) (p_pps_id p_sps_id : Option Nat) :
    Option (Bool × Option Nat × Option Nat) :=
  let _rbsp_len := length
  let base := data.drop 1
  match h264_eg_decode base 0 with
  | none => none
  | some (pps_id, offset1) =>
    match h264_eg_decode base offset1 with
    | none => none
    | some (sps_id, _) => some (true, store p_pps_id pps_id, store p_sps_id sps_id)

/-! ## The record loop with its iteration budget made visible -/

/-- The loop `while (tot > 0) { ... }` of `parse_rtp_video` once more, telling
apart the two ways of having no result: `none` when the iteration budget
`fuel` runs out, `some none` when a step is undefined (a read outside the
buffer). A finished loop reports the locals and the number of records visited. -/
def rtp_stap_run (garbage : Nat → Nat) :
    Nat → Nat → Int → List Nat → RtpLocals → Option (Option (RtpLocals × Nat))
  | 0, _, _, _, _ => none
  | fuel + 1, k, tot, buffer, st =>
    if tot > 0 then
      match buffer[0]?, buffer[1]? with
      | some b0, some b1 =>
        match (buffer.drop 2)[0]? with
        | none => some none
        | some t =>
          match (if t &&& 0x1f = 7 then
              rtp_call_sps (garbage k) (buffer.drop 2) (((b0 <<< 8) + b1) % 65536) st
            else some st) with
          | none => some none
          | some st1 =>
            rtp_stap_run garbage fuel (k + 1)
              (i32 (i32 (tot - 2) - ((((b0 <<< 8) + b1) % 65536 : Nat) : Int)))
              ((buffer.drop 2).drop (((b0 <<< 8) + b1) % 65536)) st1
      | _, _ => some none
    else some (some (st, k))

/-! ## Aggregation packets -/

/-- A record of an aggregation packet: the 2-byte big-endian length of the
NAL, then the NAL. -/
def stap_record (nal : List Nat) : List Nat :=
  (nal.length / 256) :: (nal.length % 256) :: nal

/-- The payload of a well-formed aggregation packet: its records one after
the other, filling it exactly. -/
def stap_payload : List (List Nat) → List Nat
  | [] => []
  | nal :: rest => stap_record nal ++ stap_payload rest

/-- Whether a NAL has type 7 (SPS): the low 5 bits of its first byte. -/
def is_sps (nal : List Nat) : Bool :=
  match nal with
  | [] => false
  | t :: _ => decide (t &&& 0x1f = 7)

/-- The last NAL of type 7 with its index, among NALs numbered from `k`. -/
def last_sps (k : Nat) : List (List Nat) → Option (Nat × List Nat)
  | [] => none
  | nal :: rest =>
    match last_sps (k + 1) rest with
    | some x => some x
    | none => if is_sps nal = true then some (k, nal) else none

/-- Every NAL of the list, numbered from `k`, has at least its header byte,
and `h264_parse_sps` on each NAL of type 7 alone has a defined result (it
reads no byte outside that NAL). -/
def stap_wellformed (garbage : Nat → Nat) (k : Nat) : List (List Nat) → Bool
  | [] => true
  | nal :: rest =>
    !nal.isEmpty &&
    (!is_sps nal ||
      (h264_parse_sps (garbage k) nal nal.length ⟨some 0, some 0, some 32⟩).isSome) &&
    stap_wellformed garbage (k + 1) rest

/-- What `parse_rtp_video` reports when `h264_parse_sps` is run on the NAL
`nal` alone, on fresh locals (0, 0, 32), and `out1` holds the output pointers
after the NAL type was stored: failure leaves `out1` as it is; success writes
the width, the height and the sps_id when the width and height pointers are
not NULL. -/
def sps_alone_outcome (g : Nat) (nal : List Nat) (out1 : RtpPtrs) : Option (Bool × RtpPtrs) :=
  match h264_parse_sps g nal nal.length ⟨some 0, some 0, some 32⟩ with
  | some (true, ⟨some w, some h, some i⟩) =>
    if out1.p_width.isSome = true ∧ out1.p_height.isSome = true then
      some (true, { out1 with p_width := some w, p_height := some h,
                              p_sps_id := store out1.p_sps_id i })
    else some (true, out1)
  | some (false, _) => some (false, out1)
  | _ => none

/-! ## Basic facts -/

theorem u32_of_lt {x : Nat} (h : x < 2 ^ 32) : u32 x = x := by
  unfold u32
  exact Nat.mod_eq_of_lt h

theorem u32_lt (x : Nat) : u32 x < 2 ^ 32 := by
  unfold u32
  exact Nat.mod_lt _ (by norm_num)

theorem getbit_le_one {base : List Nat} {o b : Nat} (h : h264_eg_getbit base o = some b) : b ≤ 1 := by
  unfold h264_eg_getbit at h
  split at h
  · cases h
  · injection h with h
    subst h
    rw [Nat.and_one_is_mod]
    omega

theorem Holds_append (bit : Nat → Option Nat) (o : Nat) (as bs : List Nat) :
    Holds bit o (as ++ bs) ↔ Holds bit o as ∧ Holds bit (o + as.length) bs := by
  induction as generalizing o with
  | nil => simp [Holds]
  | cons a as ih =>
    have e : o + (as.length + 1) = o + 1 + as.length := by omega
    show (bit o = some a ∧ Holds bit (o + 1) (as ++ bs)) ↔
      (bit o = some a ∧ Holds bit (o + 1) as) ∧ Holds bit (o + (as.length + 1)) bs
    rw [ih, e, and_assoc]

theorem log2_floor_aux_spec (fuel n : Nat) (h1 : 1 ≤ n) (h2 : n ≤ fuel) :
    2 ^ log2_floor_aux fuel n ≤ n ∧ n < 2 ^ (log2_floor_aux fuel n + 1) := by
  induction fuel generalizing n with
  | zero => omega
  | succ fuel ih =>
    unfold log2_floor_aux
    split
    · constructor <;> simp <;> omega
    · have := ih (n / 2) (by omega) (by omega)
      rw [pow_succ, pow_succ]
      omega

theorem log2_floor_spec (n : Nat) (h : 1 ≤ n) :
    2 ^ log2_floor n ≤ n ∧ n < 2 ^ (log2_floor n + 1) :=
  log2_floor_aux_spec n n h (le_refl n)

theorem log2_floor_eq_log (n : Nat) (h : 1 ≤ n) : log2_floor n = Nat.log 2 n := by
  have := log2_floor_spec n h
  symm
  exact (Nat.log_eq_iff (Or.inr ⟨by norm_num, by omega⟩)).2 this

theorem msb_bits_length (n x : Nat) : (msb_bits n x).length = n := by
  induction n with
  | zero => rfl
  | succ n ih => simp [msb_bits, ih]

theorem msb_bits_le_one (n x : Nat) : ∀ b ∈ msb_bits n x, b ≤ 1 := by
  induction n with
  | zero => simp [msb_bits]
  | succ n ih =>
    intro b hb
    simp only [msb_bits, List.mem_cons] at hb
    rcases hb with hb | hb
    · omega
    · exact ih b hb

theorem msb_value_msb_bits (n x : Nat) : msb_value (msb_bits n x) = x % 2 ^ n := by
  induction n with
  | zero => simp [msb_bits, msb_value, Nat.mod_one]
  | succ n ih =>
    simp only [msb_bits, msb_value, msb_bits_length, ih]
    rw [Nat.mod_pow_succ]
    ring

theorem msb_value_lt (bs : List Nat) (h : ∀ b ∈ bs, b ≤ 1) : msb_value bs < 2 ^ bs.length := by
  induction bs with
  | nil => simp [msb_value]
  | cons b bs ih =>
    have hb : b ≤ 1 := h b (List.mem_cons_self _ _)
    have := ih (fun c hc => h c (List.mem_cons_of_mem _ hc))
    simp only [msb_value, List.length_cons, pow_succ]
    have : b * 2 ^ bs.length ≤ 1 * 2 ^ bs.length := Nat.mul_le_mul_right _ hb
    omega


theorem Holds_replicate_zero_cons {bit : Nat → Option Nat} {o z : Nat} {bs : List Nat}
    (h : Holds bit o (List.replicate (z + 1) 0 ++ bs)) :
    bit o = some 0 ∧ Holds bit (o + 1) (List.replicate z 0 ++ bs) := h

theorem eg_zeros_spec (bit : Nat → Option Nat) (z : Nat) :
    ∀ (fuel o c b : Nat) (rest : List Nat), z < fuel → o + z < 2 ^ 32 → c + z < 2 ^ 32 → b ≠ 0 →
      Holds bit o (List.replicate z 0 ++ b :: rest) →
      eg_zeros bit fuel o c = some (u32 (o + z + 1), c + z) := by
  induction z with
  | zero =>
    intro fuel o c b rest hf ho hc hb h
    obtain ⟨fuel, rfl⟩ : ∃ f, fuel = f + 1 := ⟨fuel - 1, by omega⟩
    have h0 : bit o = some b := h.1
    simp [eg_zeros, h0, hb]
  | succ z ih =>
    intro fuel o c b rest hf ho hc hb h
    obtain ⟨fuel, rfl⟩ : ∃ f, fuel = f + 1 := ⟨fuel - 1, by omega⟩
    obtain ⟨h0, h1⟩ := Holds_replicate_zero_cons h
    have e1 : u32 (o + 1) = o + 1 := u32_of_lt (by omega)
    have e2 : u32 (c + 1) = c + 1 := u32_of_lt (by omega)
    simp only [eg_zeros, h0, if_true, e1, e2]
    rw [ih fuel (o + 1) (c + 1) b rest (by omega) (by omega) (by omega) hb h1,
      show o + 1 + z + 1 = o + (z + 1) + 1 by omega, show c + 1 + z = c + (z + 1) by omega]

theorem shiftLeft_lor_eq_add (b i m : Nat) (hm : m < 2 ^ i) : (b <<< i) ||| m = b * 2 ^ i + m := by
  rw [Nat.shiftLeft_eq, Nat.mul_comm b, ← Nat.mul_add_lt_is_or hm]

theorem eg_bits_spec (bit : Nat → Option Nat) (bs : List Nat) :
    ∀ (o res : Nat), bs.length ≤ 32 → o < 2 ^ 32 → o + bs.length ≤ 2 ^ 32 → (∀ b ∈ bs, b ≤ 1) →
      Holds bit o bs →
      eg_bits bit bs.length o res = some (u32 (o + bs.length), res ||| msb_value bs) := by
  induction bs with
  | nil =>
    intro o res _ ho _ _ _
    simp [eg_bits, msb_value, u32_of_lt ho]
  | cons b bs ih =>
    intro o res hl ho hol hb h
    have hb1 : b ≤ 1 := hb b (List.mem_cons_self _ _)
    have hbs : ∀ c ∈ bs, c ≤ 1 := fun c hc => hb c (List.mem_cons_of_mem _ hc)
    simp only [List.length_cons] at hl hol
    have hlt : ¬ 32 ≤ bs.length := by omega
    have hpow : 2 ^ bs.length < 2 ^ 32 := Nat.pow_lt_pow_right (by norm_num) (by omega)
    have hsh : u32 (b <<< bs.length) = b <<< bs.length := by
      apply u32_of_lt
      rw [Nat.shiftLeft_eq]
      calc b * 2 ^ bs.length ≤ 1 * 2 ^ bs.length := Nat.mul_le_mul_right _ hb1
        _ < 2 ^ 32 := by rw [Nat.one_mul]; exact hpow
    simp only [List.length_cons, eg_bits, h.1, hlt, if_false, hsh]
    rcases bs with _ | ⟨c, cs⟩
    · simp [eg_bits, msb_value]
    · have e1 : u32 (o + 1) = o + 1 := by
        apply u32_of_lt
        simp only [List.length_cons] at hol
        omega
      rw [e1, ih (o + 1) _ (by omega) (by simp only [List.length_cons] at hol; omega) (by omega)
        hbs h.2, Nat.lor_assoc, shiftLeft_lor_eq_add _ _ _ (msb_value_lt _ hbs)]
      rw [show o + 1 + (c :: cs).length = o + ((c :: cs).length + 1) by omega]
      rfl

/-- The general decoding fact: `z ≤ 31` zero bits, a 1 bit and `z` suffix bits
`bs` decode to `2 ^ z + msb_value bs - 1`, with the cursor moved over exactly
those `2 * z + 1` bits. -/
theorem eg_decode_core_spec (bit : Nat → Option Nat) (o z : Nat) (bs rest : List Nat)
    (hz : z ≤ 31) (hlen : bs.length = z) (hbs : ∀ b ∈ bs, b ≤ 1)
    (ho : o + (2 * z + 1) ≤ 2 ^ 32)
    (h : Holds bit o (List.replicate z 0 ++ 1 :: (bs ++ rest))) :
    eg_decode_core bit o = some (2 ^ z + msb_value bs - 1, u32 (o + (2 * z + 1))) := by
  have h1 := eg_zeros_spec bit z (2 ^ 32) o 0 1 (bs ++ rest)
    (by have : z < 32 := by omega
        calc z < 32 := this
          _ ≤ 2 ^ 32 := by norm_num) (by omega) (by omega) (by norm_num) h
  have h2 : Holds bit (o + z + 1) bs := by
    have := (Holds_append bit o _ _).1 h
    have h3 : Holds bit (o + z) (1 :: (bs ++ rest)) := by simpa using this.2
    have h4 : Holds bit (o + z + 1) (bs ++ rest) := h3.2
    exact ((Holds_append bit _ _ _).1 h4).1
  have hv := msb_value_lt bs hbs
  rw [hlen] at hv
  have hpow : 2 ^ z ≤ 2 ^ 31 := Nat.pow_le_pow_right (by norm_num) hz
  unfold eg_decode_core
  rw [h1]
  simp only [Nat.zero_add]
  rw [if_neg (by omega)]
  rcases Nat.eq_zero_or_pos z with hz0 | hzpos
  · subst hz0
    have : bs = [] := List.length_eq_zero.mp hlen
    subst this
    simp [eg_bits, msb_value, u32]
  · have e0 : u32 (o + z + 1) = o + z + 1 := u32_of_lt (by omega)
    have h3 := eg_bits_spec bit bs (o + z + 1) (u32 (1 <<< z)) (by omega) (by omega) (by omega) hbs h2
    rw [hlen] at h3
    rw [e0, h3]
    have e1 : u32 (1 <<< z) = 1 <<< z := by
      apply u32_of_lt
      rw [Nat.one_shiftLeft]
      omega
    rw [e1, shiftLeft_lor_eq_add _ _ _ hv, Nat.one_mul]
    simp only [Option.some.injEq, Prod.mk.injEq]
    constructor
    · unfold u32
      have : 2 ^ z + msb_value bs ≥ 1 := by omega
      omega
    · congr 1
      omega

/-! ## Exp-Golomb decoding -/

theorem log2_floor_le_31 (n : Nat) (h1 : 1 ≤ n) (h2 : n < 2 ^ 32) : log2_floor n ≤ 31 := by
  have h := (log2_floor_spec n h1).1
  by_contra hc
  have : 2 ^ 32 ≤ 2 ^ log2_floor n := Nat.pow_le_pow_right (by norm_num) (by omega)
  omega

theorem ue_eq (v : Nat) :
    ue v = List.replicate (log2_floor (v + 1)) 0 ++ 1 :: msb_bits (log2_floor (v + 1)) (v + 1) := by
  have h := log2_floor_spec (v + 1) (by omega)
  unfold ue
  rw [msb_bits]
  have : (v + 1) / 2 ^ log2_floor (v + 1) = 1 := by
    apply Nat.div_eq_of_lt_le
    · simpa using h.1
    · simpa [pow_succ, Nat.mul_comm] using h.2
  rw [this]

theorem ue_length (v : Nat) : (ue v).length = 2 * log2_floor (v + 1) + 1 := by
  rw [ue_eq]
  simp [msb_bits_length]
  omega

theorem Holds_le_one {base : List Nat} (bs : List Nat) :
    ∀ o, Holds (h264_eg_getbit base) o bs → ∀ b ∈ bs, b ≤ 1 := by
  induction bs with
  | nil => simp
  | cons c cs ih =>
    intro o h b hb
    rcases List.mem_cons.1 hb with rfl | hb
    · exact getbit_le_one h.1
    · exact ih (o + 1) h.2 b hb

theorem Holds_window {bit : Nat → Option Nat} (lo hi : Nat) (bs : List Nat) :
    ∀ o, lo ≤ o → o + bs.length ≤ hi → Holds bit o bs → Holds (bit_window bit lo hi) o bs := by
  induction bs with
  | nil => intro o _ _ _; trivial
  | cons c cs ih =>
    intro o h1 h2 h
    simp only [List.length_cons] at h2
    refine ⟨?_, ih (o + 1) (by omega) (by omega) h.2⟩
    unfold bit_window
    rw [if_pos ⟨h1, by omega⟩]
    exact h.1

/-- Decoding the Exp-Golomb code of `v` gives back `v` and moves the cursor over the code. -/
theorem eg_decode_core_ue (bit : Nat → Option Nat) (v o : Nat) (rest : List Nat)
    (hv : v ≤ 2 ^ 32 - 2) (ho : o + (ue v).length ≤ 2 ^ 32)
    (h : Holds bit o (ue v ++ rest)) :
    eg_decode_core bit o = some (v, u32 (o + (ue v).length)) := by
  have hk := log2_floor_le_31 (v + 1) (by omega) (by omega)
  have hs := log2_floor_spec (v + 1) (by omega)
  rw [ue_length] at ho
  rw [ue_eq, List.append_assoc, List.cons_append] at h
  have := eg_decode_core_spec bit o (log2_floor (v + 1)) (msb_bits (log2_floor (v + 1)) (v + 1)) rest
    hk (msb_bits_length _ _) (msb_bits_le_one _ _) ho h
  rw [this, msb_value_msb_bits, ue_length]
  have hmod : (v + 1) % 2 ^ log2_floor (v + 1) = v + 1 - 2 ^ log2_floor (v + 1) := by
    rw [Nat.mod_eq_sub_mod hs.1]
    apply Nat.mod_eq_of_lt
    rw [pow_succ] at hs
    omega
  rw [hmod]
  congr 2
  omega

/-- C3: if the bits from cursor `o` are `z ≤ 31` zero bits, a 1 bit and `z`
further bits `bs` (MSB-first value `msb_value bs`), all readable, then
`h264_eg_decode` returns `(1 << z) + msb_value bs - 1` and leaves the cursor
at `o + 2 * z + 1`; the value the suffix loop builds by OR-ing into `1 << z`
is the sum `(1 << z) + msb_value bs`; and the same result is produced when
only the bits of `[o, o + 2 * z + 1)` are readable at all, so no bit outside
that range is read. The cursor is a `uint32_t`, so `o + 2 * z + 1 < 2 ^ 32`. -/
theorem h264_eg_decode_zeros_one_suffix (base : List Nat) (o z : Nat) (bs : List Nat)
    (hz : z ≤ 31) (hlen : bs.length = z) (ho : o + 2 * z + 1 < 2 ^ 32)
    (h : Holds (h264_eg_getbit base) o (List.replicate z 0 ++ 1 :: bs)) :
    h264_eg_decode base o = some ((1 <<< z) + msb_value bs - 1, o + 2 * z + 1) ∧
    eg_bits (h264_eg_getbit base) z (o + z + 1) (u32 (1 <<< z))
      = some (o + 2 * z + 1, (1 <<< z) + msb_value bs) ∧
    eg_decode_core (bit_window (h264_eg_getbit base) o (o + 2 * z + 1)) o
      = some ((1 <<< z) + msb_value bs - 1, o + 2 * z + 1) := by
  have hall := Holds_le_one _ o h
  have hbs : ∀ b ∈ bs, b ≤ 1 := fun b hb => hall b (by simp [hb])
  have h' : Holds (h264_eg_getbit base) o (List.replicate z 0 ++ 1 :: (bs ++ [])) := by simpa using h
  have hw : Holds (bit_window (h264_eg_getbit base) o (o + 2 * z + 1)) o
      (List.replicate z 0 ++ 1 :: (bs ++ [])) :=
    Holds_window o _ _ o (le_refl o) (by simp [hlen]; omega) h'
  have e : u32 (o + (2 * z + 1)) = o + 2 * z + 1 := u32_of_lt (by omega)
  have hsuf : Holds (h264_eg_getbit base) (o + z + 1) bs := by
    have h3 := ((Holds_append _ o _ _).1 h).2
    simp only [List.length_replicate] at h3
    exact h3.2
  have hv := msb_value_lt bs hbs
  rw [hlen] at hv
  have hpow : 2 ^ z ≤ 2 ^ 31 := Nat.pow_le_pow_right (by norm_num) hz
  refine ⟨?_, ?_, ?_⟩
  · unfold h264_eg_decode
    rw [eg_decode_core_spec _ o z bs [] hz hlen hbs (by omega) h', e, Nat.one_shiftLeft]
  · have h3 := eg_bits_spec (h264_eg_getbit base) bs (o + z + 1) (u32 (1 <<< z)) (by omega)
      (by omega) (by omega) hbs hsuf
    rw [hlen] at h3
    have e1 : u32 (1 <<< z) = 1 <<< z := by
      apply u32_of_lt
      rw [Nat.one_shiftLeft]
      omega
    rw [h3, e1, shiftLeft_lor_eq_add _ _ _ hv, Nat.one_mul, Nat.one_shiftLeft,
      u32_of_lt (by omega)]
    congr 2
    omega
  · rw [eg_decode_core_spec _ o z bs [] hz hlen hbs (by omega) hw, e, Nat.one_shiftLeft]

theorem h264_eg_decode_zeros_one_suffix_witness :
    h264_eg_decode [0xff, 0x16] 8 = some ((1 <<< 3) + msb_value [0, 1, 1] - 1, 8 + 2 * 3 + 1) ∧
    eg_bits (h264_eg_getbit [0xff, 0x16]) 3 (8 + 3 + 1) (u32 (1 <<< 3))
      = some (8 + 2 * 3 + 1, (1 <<< 3) + msb_value [0, 1, 1]) ∧
    eg_decode_core (bit_window (h264_eg_getbit [0xff, 0x16]) 8 (8 + 2 * 3 + 1)) 8
      = some ((1 <<< 3) + msb_value [0, 1, 1] - 1, 8 + 2 * 3 + 1) :=
  h264_eg_decode_zeros_one_suffix [0xff, 0x16] 8 3 [0, 1, 1] (by decide) (by decide) (by decide)
    (by decide)

/-- C2: Exp-Golomb round trip. For every `v ≤ 2 ^ 32 - 2`, every cursor `o`
and every buffer that holds the standard unsigned Exp-Golomb code of `v` from
bit `o` on (all of its bits at 32-bit offsets), `h264_eg_decode` called with
cursor `o` returns `v`, with the cursor moved over the code. -/
theorem h264_eg_decode_ue (base : List Nat) (v o : Nat) (hv : v ≤ 2 ^ 32 - 2)
    (ho : o + (ue v).length ≤ 2 ^ 32) (h : Holds (h264_eg_getbit base) o (ue v)) :
    h264_eg_decode base o = some (v, u32 (o + (ue v).length)) :=
  eg_decode_core_ue (h264_eg_getbit base) v o [] hv ho (by simpa using h)

theorem h264_eg_decode_ue_witness :
    h264_eg_decode [0xa0, 0x08, 0x00] 4 = some (255, u32 (4 + (ue 255).length)) :=
  h264_eg_decode_ue [0xa0, 0x08, 0x00] 255 4 (by decide) (by decide) (by decide)

/-! ## RBSP de-escaping -/

theorem rbsp_is_escape_eq (data : List Nat) (i : Nat) (hi : i < data.length) :
    rbsp_is_escape data data.length i = some (rbsp_escape_at data i) := by
  unfold rbsp_is_escape rbsp_escape_at
  by_cases h3 : data.length - i ≥ 3
  · rw [if_pos h3]
    have h0 : i < data.length := hi
    have h1 : i + 1 < data.length := by omega
    have h2 : i + 2 < data.length := by omega
    rw [List.getElem?_eq_getElem h0, List.getElem?_eq_getElem h1, List.getElem?_eq_getElem h2]
    by_cases e0 : data[i] = 0
    · by_cases e1 : data[i + 1] = 0
      · by_cases e2 : data[i + 2] = 3 <;> simp [e0, e1, e2]
      · simp [e0, e1]
    · simp [e0]
  · rw [if_neg h3]
    have : data[i + 2]? = none := List.getElem?_eq_none (by omega)
    simp [this]

theorem rbsp_escape_at_bytes {data : List Nat} {i : Nat} (h : rbsp_escape_at data i = true) :
    data[i]? = some 0 ∧ data[i + 1]? = some 0 ∧ data[i + 2]? = some 3 := by
  simpa [rbsp_escape_at, and_assoc] using h

/-- The loop of `h264_parse_rbsp` from index `i` appends the kept bytes of
`data[i ..]`, provided no `00 00 03` starts one or two bytes before `i`. -/
theorem rbsp_loop_spec (data : List Nat) :
    ∀ (fuel i : Nat) (out : List Nat), i ≤ data.length → data.length - i < fuel →
      (∀ k, k < i → i ≤ k + 2 → rbsp_escape_at data k = false) →
      rbsp_loop data data.length fuel i out = some (out ++
        (List.range' i (data.length - i)).filterMap
          (fun j => if 2 ≤ j ∧ rbsp_escape_at data (j - 2) = true then none else data[j]?)) := by
  intro fuel
  induction fuel with
  | zero => intro i out _ h; omega
  | succ fuel ih =>
    intro i out hle hf hP
    unfold rbsp_loop
    by_cases hi : i < data.length
    · rw [if_pos hi, rbsp_is_escape_eq data i hi]
      have keep : ∀ j, j < data.length → (∀ k, k + 2 = j → rbsp_escape_at data k = false) →
          (if 2 ≤ j ∧ rbsp_escape_at data (j - 2) = true then none else data[j]?) = some data[j]! := by
        intro j hj hk
        rw [if_neg, List.getElem?_eq_getElem hj, getElem!_pos data j hj]
        rintro ⟨h2, he⟩
        rw [hk (j - 2) (by omega)] at he
        cases he
      cases he : rbsp_escape_at data i
      · -- no escape at `i`: one byte is copied
        have hk := keep i hi (fun k hk => hP k (by omega) (by omega))
        obtain ⟨m, hm⟩ : ∃ m, data.length - i = m + 1 := ⟨data.length - i - 1, by omega⟩
        simp only [List.getElem?_eq_getElem hi]
        rw [ih (i + 1) _ (by omega) (by omega)
          (by
            intro k hk1 hk2
            by_cases hki : k = i
            · rw [hki]; exact he
            · exact hP k (by omega) (by omega))]
        rw [hm, List.range'_succ, show data.length - (i + 1) = m by omega]
        simp only [List.filterMap_cons, hk, getElem!_pos data i hi]
        simp
      · -- escape at `i`: two bytes are copied, three consumed
        obtain ⟨b0, b1, b2⟩ := rbsp_escape_at_bytes he
        have h2 : i + 2 < data.length := by
          by_contra hc
          rw [List.getElem?_eq_none (by omega)] at b2
          cases b2
        obtain ⟨m, hm⟩ : ∃ m, data.length - i = m + 3 := ⟨data.length - i - 3, by omega⟩
        have hk0 := keep i hi (fun k hk => hP k (by omega) (by omega))
        have hk1 := keep (i + 1) (by omega) (fun k hk => hP k (by omega) (by omega))
        have hd : (if 2 ≤ i + 2 ∧ rbsp_escape_at data (i + 2 - 2) = true then none
            else data[i + 2]?) = none := by
          rw [if_pos]
          exact ⟨by omega, by simpa using he⟩
        simp only [b0, b1]
        rw [ih (i + 3) _ (by omega) (by omega)
          (by
            intro k hk1 hk2
            by_contra hc
            simp only [Bool.not_eq_false] at hc
            obtain ⟨c0, c1, c2⟩ := rbsp_escape_at_bytes hc
            have : k = i + 1 ∨ k = i + 2 := by omega
            rcases this with rfl | rfl
            · rw [show i + 1 + 1 = i + 2 by omega, b2] at c1
              cases c1
            · rw [b2] at c0
              cases c0)]
        rw [hm, List.range'_succ, List.range'_succ, List.range'_succ,
          show data.length - (i + 3) = m by omega]
        simp only [List.filterMap_cons, hk0, hk1, hd]
        have e0 : data[i]! = 0 := by
          rw [getElem!_pos data i hi]
          rw [List.getElem?_eq_getElem hi] at b0
          exact Option.some.inj b0
        have e1 : data[i + 1]! = 0 := by
          have h1 : i + 1 < data.length := by omega
          rw [getElem!_pos data (i + 1) h1]
          rw [List.getElem?_eq_getElem h1] at b1
          exact Option.some.inj b1
        rw [e0, e1]
        simp [Nat.add_assoc]
    · rw [if_neg hi]
      have : data.length - i = 0 := by omega
      simp [this]

theorem rbsp_escape_at_lt {data : List Nat} {i : Nat} (h : rbsp_escape_at data i = true) :
    i + 2 < data.length := by
  obtain ⟨_, _, b2⟩ := rbsp_escape_at_bytes h
  by_contra hc
  rw [List.getElem?_eq_none (by omega)] at b2
  cases b2

/-- Counting the dropped positions `j` (those with `00 00 03` at `j - 2`) is
counting the positions of `00 00 03`. -/
theorem rbsp_count_shift (data : List Nat) :
    (List.range data.length).countP
        (fun j => decide (2 ≤ j ∧ rbsp_escape_at data (j - 2) = true)) =
      rbsp_escape_count data := by
  unfold rbsp_escape_count
  by_cases hn : data.length < 2
  · rw [List.countP_eq_zero.2, List.countP_eq_zero.2]
    · intro i _ hi
      have := rbsp_escape_at_lt hi
      omega
    · intro j hj hc
      simp only [decide_eq_true_eq] at hc
      have := rbsp_escape_at_lt hc.2
      have := List.mem_range.1 hj
      omega
  · obtain ⟨m, hm⟩ : ∃ m, data.length = m + 2 := ⟨data.length - 2, by omega⟩
    have e1 : List.range data.length = List.range' 0 2 ++ List.range' 2 m := by
      rw [List.range_eq_range', hm, List.range'_append_1]
    have e2 : List.range data.length = List.range' 0 m ++ List.range' m 2 := by
      rw [List.range_eq_range', hm]
      have := List.range'_append_1 0 m 2
      rw [Nat.zero_add] at this
      rw [this, Nat.add_comm]
    have e3 : List.range' 2 m = List.map (2 + ·) (List.range' 0 m) := by
      rw [List.map_add_range']
    conv_lhs => rw [e1]
    conv_rhs => rw [e2]
    rw [List.countP_append, List.countP_append, e3, List.countP_map]
    have z1 : List.countP (fun j => decide (2 ≤ j ∧ rbsp_escape_at data (j - 2) = true))
        (List.range' 0 2) = 0 := by
      apply List.countP_eq_zero.2
      intro j hj hc
      simp only [decide_eq_true_eq] at hc
      have := (List.mem_range'_1.1 hj).2
      have := rbsp_escape_at_lt hc.2
      omega
    have z2 : List.countP (rbsp_escape_at data) (List.range' m 2) = 0 := by
      apply List.countP_eq_zero.2
      intro i hi hc
      have := (List.mem_range'_1.1 hi).1
      have := rbsp_escape_at_lt hc
      omega
    rw [z1, z2, Nat.zero_add, Nat.add_zero]
    apply List.countP_congr
    intro i _
    simp

theorem rbsp_strip_length (data : List Nat) :
    (rbsp_strip data).length + rbsp_escape_count data = data.length := by
  rw [← rbsp_count_shift]
  unfold rbsp_strip
  rw [List.length_filterMap_eq_countP]
  have hc : List.countP (fun j => (if 2 ≤ j ∧ rbsp_escape_at data (j - 2) = true then none
        else data[j]?).isSome) (List.range data.length) =
      List.countP (fun j => ! decide (2 ≤ j ∧ rbsp_escape_at data (j - 2) = true))
        (List.range data.length) := by
    apply List.countP_congr
    intro j hj
    have hj' := List.mem_range.1 hj
    by_cases h : 2 ≤ j ∧ rbsp_escape_at data (j - 2) = true
    · simp [h]
    · simp [h, List.getElem?_eq_getElem hj']
  rw [hc]
  have := List.length_eq_countP_add_countP
    (fun j => decide (2 ≤ j ∧ rbsp_escape_at data (j - 2) = true)) (List.range data.length)
  rw [List.length_range] at this
  simp only [Bool.not_eq_true, Bool.decide_eq_false] at this
  omega

/-- C4: on every input byte sequence `h264_parse_rbsp` returns the input
without the `03` byte of each `00 00 03` (every other byte kept, in order);
the output length is the input length minus the number of positions holding
`00 00 03`, hence at most the input length; and `01 00 00 03 02` yields
`01 00 00 02`. -/
theorem h264_parse_rbsp_strips_escapes (data : List Nat) :
    h264_parse_rbsp data data.length = some (rbsp_strip data) ∧
    (rbsp_strip data).length = data.length - rbsp_escape_count data ∧
    (rbsp_strip data).length ≤ data.length ∧
    h264_parse_rbsp [1, 0, 0, 3, 2] 5 = some [1, 0, 0, 2] := by
  have hl := rbsp_strip_length data
  refine ⟨?_, by omega, by omega, by decide⟩
  unfold h264_parse_rbsp
  rw [rbsp_loop_spec data (data.length + 1) 0 [] (Nat.zero_le _) (by omega)
    (fun k hk _ => absurd hk (Nat.not_lt_zero k))]
  simp [rbsp_strip, List.range_eq_range']

/-! ## SPS parsing -/

theorem Stream_cast {base : List Nat} {o o' : Nat} {bs : List Nat} (h : Stream base o bs)
    (e : o = o') : Stream base o' bs := e ▸ h

theorem Stream_ue {base : List Nat} {o v : Nat} {rest : List Nat}
    (h : Stream base o (ue v ++ rest)) (hv : v ≤ 2 ^ 32 - 2) :
    h264_eg_decode base o = some (v, o + (ue v).length) ∧
      Stream base (o + (ue v).length) rest := by
  obtain ⟨h1, h2⟩ := h
  rw [List.length_append] at h2
  refine ⟨?_, ((Holds_append _ _ _ _).1 h1).2, by omega⟩
  unfold h264_eg_decode
  rw [eg_decode_core_ue _ v o rest hv (by omega) h1, u32_of_lt (by omega)]

theorem Stream_bit {base : List Nat} {o b : Nat} {rest : List Nat}
    (h : Stream base o (b :: rest)) :
    getbit_inc base o = some (b, o + 1) ∧ Stream base (o + 1) rest := by
  obtain ⟨h1, h2⟩ := h
  rw [List.length_cons] at h2
  refine ⟨?_, h1.2, by omega⟩
  unfold getbit_inc
  rw [h1.1, u32_of_lt (by omega)]

theorem Stream_skip_ref_frames {base : List Nat} (offs : List Nat) :
    ∀ {o : Nat} {rest : List Nat}, Stream base o ((offs.map ue).flatten ++ rest) →
      (∀ x ∈ offs, x ≤ 2 ^ 32 - 2) →
      sps_skip_ref_frames base offs.length o = some (o + ((offs.map ue).flatten).length) ∧
        Stream base (o + ((offs.map ue).flatten).length) rest := by
  induction offs with
  | nil =>
    intro o rest h _
    simpa [sps_skip_ref_frames] using h
  | cons x xs ih =>
    intro o rest h hx
    simp only [List.map_cons, List.flatten_cons, List.append_assoc] at h
    obtain ⟨e1, h1⟩ := Stream_ue h (hx x (List.mem_cons_self _ _))
    obtain ⟨e2, h2⟩ := ih h1 (fun y hy => hx y (List.mem_cons_of_mem _ hy))
    simp only [List.length_cons, sps_skip_ref_frames, e1, e2, List.map_cons, List.flatten_cons,
      List.length_append, Nat.add_assoc]
    exact ⟨trivial, by simpa [Nat.add_assoc] using h2⟩

theorem i32_of_lt {x : Nat} (h : x < 2 ^ 31) : i32 (x : Int) = x := by
  unfold i32
  omega

theorem Stream_pic_order_cnt {base : List Nat} {o : Nat} {rest : List Nat} (poc : PocFields)
    (h : Stream base o (poc.bits ++ rest)) (hv : poc.Valid) :
    sps_pic_order_cnt base o = some (o + poc.bits.length) ∧
      Stream base (o + poc.bits.length) rest := by
  cases poc with
  | type0 l =>
    simp only [PocFields.bits, List.append_assoc] at h ⊢
    obtain ⟨e1, h1⟩ := Stream_ue h (by norm_num)
    obtain ⟨e2, h2⟩ := Stream_ue h1 hv
    have e0 : i32 ((0 : Nat) : Int) = 0 := by unfold i32; omega
    unfold sps_pic_order_cnt
    rw [e1]
    simp only [e0, if_true, e2]
    exact ⟨by rw [List.length_append, Nat.add_assoc],
      Stream_cast h2 (by rw [List.length_append, Nat.add_assoc])⟩
  | type1 d a b offs =>
    obtain ⟨ha, hb, hn, hx⟩ := hv
    simp only [PocFields.bits, List.append_assoc, List.cons_append] at h ⊢
    obtain ⟨e1, h1⟩ := Stream_ue h (by norm_num)
    obtain ⟨e2, h2⟩ := Stream_bit h1
    obtain ⟨e3, h3⟩ := Stream_ue h2 ha
    obtain ⟨e4, h4⟩ := Stream_ue h3 hb
    obtain ⟨e5, h5⟩ := Stream_ue h4 (by omega)
    obtain ⟨e6, h6⟩ := Stream_skip_ref_frames offs h5 hx
    have en : (i32 (offs.length : Int)).toNat = offs.length := by
      rw [i32_of_lt hn]
      exact Int.toNat_natCast _
    have e01 : i32 ((1 : Nat) : Int) = 1 := by unfold i32; omega
    have e02 : i32 ((1 : Nat) : Int) ≠ 0 := by unfold i32; omega
    unfold sps_pic_order_cnt
    rw [e1]
    simp only []
    rw [if_neg e02, if_pos e01]
    unfold sps_pic_order_cnt_1
    rw [e2]
    simp only [e3, e4, e5, en, e6]
    have el : o + (ue 1).length + 1 + (ue a).length + (ue b).length + (ue offs.length).length +
        (List.map ue offs).flatten.length =
        o + (ue 1 ++ d :: (ue a ++ (ue b ++ (ue offs.length ++ (List.map ue offs).flatten)))).length := by
      simp only [List.length_append, List.length_cons]
      omega
    exact ⟨by rw [el], Stream_cast h6 el⟩
  | other p =>
    obtain ⟨hp1, hp2⟩ := hv
    simp only [PocFields.bits] at h ⊢
    obtain ⟨e1, h1⟩ := Stream_ue h hp2
    have n0 : i32 (p : Int) ≠ 0 := by unfold i32; omega
    have n1 : i32 (p : Int) ≠ 1 := by unfold i32; omega
    unfold sps_pic_order_cnt
    rw [e1]
    simp only [n0, n1, if_false]
    exact ⟨trivial, h1⟩

theorem Stream_cropping {base : List Nat} {o : Nat} {rest : List Nat}
    (crop : Option (Nat × Nat × Nat × Nat)) (h : Stream base o (crop_bits crop ++ rest))
    (hv : CropValid crop) :
    sps_cropping base o = some ((crop_ints crop).1, (crop_ints crop).2.1, (crop_ints crop).2.2.1,
        (crop_ints crop).2.2.2, o + (crop_bits crop).length) ∧
      Stream base (o + (crop_bits crop).length) rest := by
  cases crop with
  | none =>
    simp only [crop_bits, List.cons_append, List.nil_append] at h
    obtain ⟨e1, h1⟩ := Stream_bit h
    unfold sps_cropping
    rw [e1]
    exact ⟨by simp [crop_ints, crop_bits], h1⟩
  | some c =>
    obtain ⟨l, r, t, b⟩ := c
    obtain ⟨hl, hr, ht, hb⟩ := hv
    simp only [crop_bits, List.cons_append, List.append_assoc] at h
    obtain ⟨e1, h1⟩ := Stream_bit h
    obtain ⟨e2, h2⟩ := Stream_ue h1 hl
    obtain ⟨e3, h3⟩ := Stream_ue h2 hr
    obtain ⟨e4, h4⟩ := Stream_ue h3 ht
    obtain ⟨e5, h5⟩ := Stream_ue h4 hb
    have el : o + 1 + (ue l).length + (ue r).length + (ue t).length + (ue b).length =
        o + (crop_bits (some (l, r, t, b))).length := by
      simp only [crop_bits, List.length_append, List.length_cons]
      omega
    unfold sps_cropping
    rw [e1]
    simp only [e2, e3, e4, e5, crop_ints, ← el]
    exact ⟨by simp, h5⟩

theorem Stream_frame_bits {base : List Nat} {o f mbaff : Nat} {rest : List Nat} (hf : f ≤ 1)
    (h : Stream base o (frame_bits f mbaff ++ rest)) :
    ∃ x, getbit_inc base o = some (f, o + 1) ∧
      (if f = 0 then getbit_inc base (o + 1) else some (0, o + 1)) =
        some (x, o + (frame_bits f mbaff).length) ∧
      Stream base (o + (frame_bits f mbaff).length) rest := by
  unfold frame_bits at h ⊢
  by_cases h0 : f = 0
  · subst h0
    simp only [if_true, List.cons_append, List.nil_append] at h ⊢
    obtain ⟨e1, h1⟩ := Stream_bit h
    obtain ⟨e2, h2⟩ := Stream_bit h1
    refine ⟨mbaff, e1, ?_, h2⟩
    rw [e2]
    rfl
  · have h1f : f = 1 := by omega
    subst h1f
    simp only [if_neg h0, List.cons_append, List.nil_append] at h ⊢
    obtain ⟨e1, h1⟩ := Stream_bit h
    refine ⟨0, e1, ?_, h1⟩
    rfl

/-- Everything after the profile block: on the bits of a well-formed SPS tail
`sps_fields` succeeds and writes the width and height that the code's `int`
arithmetic gives on the decoded fields. -/
theorem sps_fields_spec {base : List Nat} {o : Nat} (chroma sep : Nat) (out : SpsPtrs)
    (l2 : Nat) (poc : PocFields) (mr gaps w h f mbaff d8 : Nat)
    (crop : Option (Nat × Nat × Nat × Nat)) (vui : Nat)
    (hs : Stream base o (sps_tail_bits l2 poc mr gaps w h f mbaff d8 crop vui))
    (hl2 : l2 ≤ 2 ^ 32 - 2) (hpoc : poc.Valid) (hmr : mr ≤ 2 ^ 32 - 2)
    (hw : w ≤ 2 ^ 32 - 2) (hh : h ≤ 2 ^ 32 - 2) (hf : f ≤ 1) (hcrop : CropValid crop) :
    sps_fields base chroma sep o out = some (true,
      { out with
        p_width := store out.p_width (sps_width (i32 (w : Int))
          (sps_scale_crop sep chroma (i32 (f : Int)) (crop_ints crop)).1
          (sps_scale_crop sep chroma (i32 (f : Int)) (crop_ints crop)).2.1),
        p_height := store out.p_height (sps_height (i32 (f : Int)) (i32 (h : Int))
          (sps_scale_crop sep chroma (i32 (f : Int)) (crop_ints crop)).2.2.1
          (sps_scale_crop sep chroma (i32 (f : Int)) (crop_ints crop)).2.2.2) }) := by
  unfold sps_tail_bits at hs
  obtain ⟨e1, h1⟩ := Stream_ue hs hl2
  obtain ⟨e2, h2⟩ := Stream_pic_order_cnt poc h1 hpoc
  obtain ⟨e3, h3⟩ := Stream_ue h2 hmr
  obtain ⟨e4, h4⟩ := Stream_bit h3
  obtain ⟨e5, h5⟩ := Stream_ue h4 hw
  obtain ⟨e6, h6⟩ := Stream_ue h5 hh
  obtain ⟨x, e7, e8, h8⟩ := Stream_frame_bits hf h6
  obtain ⟨e9, h9⟩ := Stream_bit h8
  obtain ⟨e10, h10⟩ := Stream_cropping crop h9 hcrop
  obtain ⟨e11, _⟩ := Stream_bit h10
  unfold sps_fields
  rw [e1]
  simp only [e2, e3, e4, e5, e6, e7, e8, e9, e10, e11]

theorem i32_eq_self {x : Int} (h1 : -2 ^ 31 ≤ x) (h2 : x < 2 ^ 31) : i32 x = x := by
  unfold i32
  omega

theorem sps_profile_baseline (g : Nat) (base : List Nat) (o : Nat) :
    sps_profile g 66 base o = some (some (1, 0, o)) := by
  unfold sps_profile
  rw [if_neg (by decide)]

theorem sps_scale_crop_baseline_none :
    sps_scale_crop 0 1 (i32 ((1 : Nat) : Int)) (crop_ints none) = (0, 0, 0, 0) := by
  have e0 : i32 0 = 0 := i32_eq_self (by norm_num) (by norm_num)
  simp [sps_scale_crop, crop_ints, e0]

theorem sps_width_nocrop (w : Nat) (hw : 16 * (w + 1) < 2 ^ 31) :
    sps_width (i32 (w : Int)) 0 0 = 16 * ((w : Int) + 1) := by
  unfold sps_width
  rw [i32_eq_self (x := (w : Int)) (by omega) (by omega),
    i32_eq_self (x := (w : Int) + 1) (by omega) (by omega),
    i32_eq_self (x := ((w : Int) + 1) * 16) (by omega) (by omega),
    i32_eq_self (x := (0 : Int) + 0) (by norm_num) (by norm_num),
    i32_eq_self (by omega) (by omega)]
  omega

theorem sps_height_frame_nocrop (h : Nat) (hh : 16 * (h + 1) < 2 ^ 31) :
    sps_height (i32 ((1 : Nat) : Int)) (i32 (h : Int)) 0 0 = 16 * ((h : Int) + 1) := by
  unfold sps_height
  have e1 : i32 ((1 : Nat) : Int) = 1 := i32_eq_self (by norm_num) (by norm_num)
  have e2 : i32 (2 - 1) = 1 := i32_eq_self (by norm_num) (by norm_num)
  rw [e1, e2, i32_eq_self (x := (h : Int)) (by omega) (by omega),
    i32_eq_self (x := (h : Int) + 1) (by omega) (by omega), Int.one_mul,
    i32_eq_self (x := (h : Int) + 1) (by omega) (by omega),
    i32_eq_self (x := ((h : Int) + 1) * 16) (by omega) (by omega),
    i32_eq_self (x := (0 : Int) + 0) (by norm_num) (by norm_num),
    i32_eq_self (by omega) (by omega)]
  omega

/-- The parse of a baseline-profile SPS with `frame_mbs_only_flag = 1` and no
cropping, for dimensions that fit an `int`. -/
theorem h264_parse_sps_baseline (g : Nat) (buffer : List Nat) (length : Nat) (out : SpsPtrs)
    (sps_id l2 : Nat) (poc : PocFields) (mr gaps w h d8 vui : Nat)
    (hprof : buffer[1]? = some 66)
    (hbits : Stream (buffer.drop 4) 0 (baseline_bits sps_id l2 poc mr gaps w h d8 vui))
    (hid : sps_id ≤ 2 ^ 32 - 2) (hl2 : l2 ≤ 2 ^ 32 - 2) (hpoc : poc.Valid)
    (hmr : mr ≤ 2 ^ 32 - 2) (hw : 16 * (w + 1) < 2 ^ 31) (hh : 16 * (h + 1) < 2 ^ 31) :
    h264_parse_sps g buffer length out = some (true,
      ⟨store out.p_width (16 * ((w : Int) + 1)), store out.p_height (16 * ((h : Int) + 1)),
        store out.p_sps_id sps_id⟩) := by
  unfold baseline_bits at hbits
  obtain ⟨e1, h1⟩ := Stream_ue hbits hid
  rw [Nat.zero_add] at e1 h1
  have e2 := sps_fields_spec 1 0 { out with p_sps_id := store out.p_sps_id sps_id }
    l2 poc mr gaps w h 1 0 d8 none vui h1 hl2 hpoc hmr (by omega) (by omega) (le_refl 1) trivial
  rw [sps_scale_crop_baseline_none, sps_width_nocrop w hw, sps_height_frame_nocrop h hh] at e2
  unfold h264_parse_sps
  rw [hprof]
  simp only [e1, sps_profile_baseline, e2]

/-- C1 (amended): for every baseline-profile SPS NAL (byte 1 = 66) whose
bit-packed fields from byte 4 on are the Exp-Golomb / single-bit codes of any
`sps_id`, `log2_max_frame_num_minus4`, `pic_order_cnt_type` with its dependent
fields, `max_num_ref_frames` and gaps flag, then `pic_width_in_mbs_minus1 = w`,
`pic_height_in_map_units_minus1 = h` with `w, h < 2 ^ 27 - 1`,
`frame_mbs_only_flag = 1`, `direct_8x8_inference_flag`,
`frame_cropping_flag = 0` and the vui flag, all readable at 32-bit cursors,
`h264_parse_sps` succeeds and reports width `16 * (w + 1)`, height
`16 * (h + 1)` and the encoded `sps_id`. -/
theorem h264_parse_sps_baseline_dimensions (g : Nat) (buffer : List Nat) (length : Nat)
    (out : SpsPtrs) (sps_id l2 : Nat) (poc : PocFields) (mr gaps w h d8 vui : Nat)
    (hprof : buffer[1]? = some 66)
    (hbits : Stream (buffer.drop 4) 0 (baseline_bits sps_id l2 poc mr gaps w h d8 vui))
    (hid : sps_id ≤ 2 ^ 32 - 2) (hl2 : l2 ≤ 2 ^ 32 - 2) (hpoc : poc.Valid)
    (hmr : mr ≤ 2 ^ 32 - 2) (hw : w < 2 ^ 27 - 1) (hh : h < 2 ^ 27 - 1) :
    h264_parse_sps g buffer length out = some (true,
      ⟨store out.p_width (16 * ((w : Int) + 1)), store out.p_height (16 * ((h : Int) + 1)),
        store out.p_sps_id sps_id⟩) :=
  h264_parse_sps_baseline g buffer length out sps_id l2 poc mr gaps w h d8 vui hprof hbits hid hl2
    hpoc hmr (by omega) (by omega)

theorem h264_parse_sps_baseline_dimensions_witness :
    h264_parse_sps 0 [0x67, 66, 0xc0, 0x1e, 51, 82, 20, 135, 138, 36, 88, 141] 12
        ⟨some 0, some 0, none⟩ =
      some (true, ⟨store (some 0) (16 * (((10 : Nat) : Int) + 1)),
        store (some 0) (16 * (((7 : Nat) : Int) + 1)), store none 5⟩) :=
  h264_parse_sps_baseline_dimensions 0 [0x67, 66, 0xc0, 0x1e, 51, 82, 20, 135, 138, 36, 88, 141] 12
    ⟨some 0, some 0, none⟩ 5 2 (.type1 1 3 4 [6, 0, 9]) 3 1 10 7 1 1 (by decide)
    ⟨by decide, by decide⟩ (by decide) (by decide) ⟨by decide, by decide, by decide, by decide⟩
    (by decide) (by decide) (by decide)

/-- C1 as stated fails at `w = 2 ^ 27 - 1`: the buffer is a baseline SPS whose
fields are all readable, with `w < 2 ^ 27` and `h = 7`, and `h264_parse_sps`
reports the width `-2147483648` (the `int` product `(w + 1) * 16` wraps), not
`16 * (w + 1) = 2147483648`. -/
theorem h264_parse_sps_baseline_width_overflow :
    [0x67, 66, 0, 0, 248, 0, 0, 0, 64, 0, 0, 0, 136][1]? = some 66 ∧
    Stream (List.drop 4 [0x67, 66, 0, 0, 248, 0, 0, 0, 64, 0, 0, 0, 136]) 0
      (baseline_bits 0 0 (.type0 0) 0 0 (2 ^ 27 - 1) 7 0 0) ∧
    2 ^ 27 - 1 < 2 ^ 27 ∧
    h264_parse_sps 0 [0x67, 66, 0, 0, 248, 0, 0, 0, 64, 0, 0, 0, 136] 13
        ⟨some 0, some 0, some 0⟩ =
      some (true, ⟨some (-2147483648), some 128, some 0⟩) ∧
    (-2147483648 : Int) ≠ 16 * (((2 ^ 27 - 1 : Nat) : Int) + 1) := by
  refine ⟨by decide, ⟨by decide, by decide⟩, by decide, ?_, by decide⟩
  with_unfolding_all rfl

/-! ## RTP dispatcher -/

/-- C5: for every buffer and every `nal_size` with `nal_size < 4` or
`nal_size ≥ 1500`, `parse_rtp_video` returns failure whatever the buffer holds
and leaves all four outputs (NAL type, width, height, sps_id) as they were. -/
theorem parse_rtp_video_invalid_size (garbage : Nat → Nat) (nal_data : List Nat) (nal_size : Nat)
    (out : RtpPtrs) (h : nal_size < 4 ∨ nal_size ≥ 1500) :
    parse_rtp_video garbage nal_data nal_size out = some (false, out) := by
  unfold parse_rtp_video
  rw [if_pos h]

theorem parse_rtp_video_invalid_size_witness :
    parse_rtp_video (fun _ => 0) [0x67, 66, 0, 0, 248, 88, 136] 3 ⟨some 9, some 1, some 2, some 3⟩
        = some (false, ⟨some 9, some 1, some 2, some 3⟩) ∧
      parse_rtp_video (fun _ => 0) (List.replicate 1500 0) 1500 ⟨some 9, some 1, some 2, some 3⟩
        = some (false, ⟨some 9, some 1, some 2, some 3⟩) :=
  ⟨parse_rtp_video_invalid_size (fun _ => 0) [0x67, 66, 0, 0, 248, 88, 136] 3
      ⟨some 9, some 1, some 2, some 3⟩ (Or.inl (by decide)),
    parse_rtp_video_invalid_size (fun _ => 0) (List.replicate 1500 0) 1500
      ⟨some 9, some 1, some 2, some 3⟩ (Or.inr (by decide))⟩

/-- The result of `parse_rtp_video` on a NAL whose type is neither 7 nor 24. -/
theorem rtp_plain_nal_result (garbage : Nat → Nat) (b : Nat) (rest : List Nat) (nal_size : Nat)
    (out : RtpPtrs) (h1 : 4 ≤ nal_size) (h2 : nal_size < 1500)
    (h7 : b &&& 0x1f ≠ 7) (h24 : b &&& 0x1f ≠ 24) :
    parse_rtp_video garbage (b :: rest) nal_size out =
      some (false, { out with p_rtp_type := store out.p_rtp_type (b &&& 0x1f) }) := by
  unfold parse_rtp_video
  rw [if_neg (by omega)]
  simp only [List.getElem?_cons_zero, if_neg h7, if_neg h24]
  simp

/-- C10: for every input with `4 ≤ nal_size < 1500` whose NAL type (low 5 bits
of byte 0) is neither 7 nor 24, `parse_rtp_video` reports the NAL type, returns
the found-flag false and leaves the width, height and sps_id outputs
unchanged; the same happens on the buffer that holds byte 0 alone, so no other
byte is read. -/
theorem parse_rtp_video_other_type (garbage : Nat → Nat) (b : Nat) (rest : List Nat)
    (nal_size : Nat) (out : RtpPtrs) (h1 : 4 ≤ nal_size) (h2 : nal_size < 1500)
    (h7 : b &&& 0x1f ≠ 7) (h24 : b &&& 0x1f ≠ 24) :
    parse_rtp_video garbage (b :: rest) nal_size out =
      some (false, ⟨store out.p_rtp_type (b &&& 0x1f), out.p_width, out.p_height, out.p_sps_id⟩) ∧
    parse_rtp_video garbage [b] nal_size out = parse_rtp_video garbage (b :: rest) nal_size out := by
  rw [rtp_plain_nal_result garbage b rest nal_size out h1 h2 h7 h24,
    rtp_plain_nal_result garbage b [] nal_size out h1 h2 h7 h24]
  exact ⟨rfl, rfl⟩

theorem parse_rtp_video_other_type_witness :
    parse_rtp_video (fun _ => 0) (0x65 :: [0x88, 0x84, 0x00, 0x33]) 5 ⟨some 0, some 1, some 2, some 3⟩ =
      some (false, ⟨store (some 0) (0x65 &&& 0x1f), some 1, some 2, some 3⟩) ∧
    parse_rtp_video (fun _ => 0) [0x65] 5 ⟨some 0, some 1, some 2, some 3⟩ =
      parse_rtp_video (fun _ => 0) (0x65 :: [0x88, 0x84, 0x00, 0x33]) 5
        ⟨some 0, some 1, some 2, some 3⟩ :=
  parse_rtp_video_other_type (fun _ => 0) 0x65 [0x88, 0x84, 0x00, 0x33] 5
    ⟨some 0, some 1, some 2, some 3⟩ (by decide) (by decide) (by decide) (by decide)

/-- C9: for every input with `4 ≤ nal_size < 1500`, whatever `parse_rtp_video`
returns, the NAL type it reports is the low 5 bits of byte 0 of the buffer;
for an aggregation packet that is 24, whatever the types of the sub-NAL units
(the write to `*p_rtp_type` precedes the record loop and is never redone);
and for a type other than 7 and 24 the call always returns. -/
theorem parse_rtp_video_reports_type (garbage : Nat → Nat) (b : Nat) (rest : List Nat)
    (nal_size : Nat) (out : RtpPtrs) (h1 : 4 ≤ nal_size) (h2 : nal_size < 1500) :
    (parse_rtp_video garbage (b :: rest) nal_size out).map (fun r => r.2.p_rtp_type) =
      (parse_rtp_video garbage (b :: rest) nal_size out).map
        (fun _ => store out.p_rtp_type (b &&& 0x1f)) ∧
    (b &&& 0x1f = 24 →
      (parse_rtp_video garbage (b :: rest) nal_size out).map (fun r => r.2.p_rtp_type) =
        (parse_rtp_video garbage (b :: rest) nal_size out).map
          (fun _ => store out.p_rtp_type 24)) ∧
    (b &&& 0x1f ≠ 7 → b &&& 0x1f ≠ 24 →
      (parse_rtp_video garbage (b :: rest) nal_size out).isSome = true) := by
  have key : (parse_rtp_video garbage (b :: rest) nal_size out).map (fun r => r.2.p_rtp_type) =
      (parse_rtp_video garbage (b :: rest) nal_size out).map
        (fun _ => store out.p_rtp_type (b &&& 0x1f)) := by
    unfold parse_rtp_video
    rw [if_neg (by omega)]
    simp only [List.getElem?_cons_zero]
    split
    · rfl
    · split <;> rfl
  refine ⟨key, ?_, ?_⟩
  · intro h24
    rw [key, h24]
  · intro h7 h24
    rw [rtp_plain_nal_result garbage b rest nal_size out h1 h2 h7 h24]
    rfl

theorem parse_rtp_video_reports_type_witness :
    ((parse_rtp_video (fun _ => 0) (24 :: [0, 2, 0x65, 9, 0, 7, 0x67, 66, 0, 0, 248, 88, 136]) 14
        ⟨some 0, some 0, some 0, some 0⟩).map (fun r => r.2.p_rtp_type) =
      (parse_rtp_video (fun _ => 0) (24 :: [0, 2, 0x65, 9, 0, 7, 0x67, 66, 0, 0, 248, 88, 136]) 14
        ⟨some 0, some 0, some 0, some 0⟩).map (fun _ => store (some 0) (24 &&& 0x1f))) ∧
    parse_rtp_video (fun _ => 0) (24 :: [0, 2, 0x65, 9, 0, 7, 0x67, 66, 0, 0, 248, 88, 136]) 14
        ⟨some 0, some 0, some 0, some 0⟩ = some (true, ⟨some 24, some 176, some 128, some 0⟩) :=
  ⟨(parse_rtp_video_reports_type (fun _ => 0) 24 [0, 2, 0x65, 9, 0, 7, 0x67, 66, 0, 0, 248, 88, 136]
      14 ⟨some 0, some 0, some 0, some 0⟩ (by decide) (by decide)).1,
    by with_unfolding_all rfl⟩

theorem sps_profile_unsupported (g profile : Nat) (base : List Nat) (o : Nat)
    (h : profile ∉ [66, 100, 110, 122, 244, 44, 83, 86, 118, 128, 138, 139, 134]) :
    sps_profile g profile base o = some none := by
  simp only [List.mem_cons, List.mem_singleton, List.not_mem_nil, or_false, not_or] at h
  obtain ⟨h66, h100, h110, h122, h244, h44, h83, h86, h118, h128, h138, h139, h134⟩ := h
  unfold sps_profile
  rw [if_pos h66, if_neg]
  simp only [not_or]
  exact ⟨h100, h110, h122, h244, h44, h83, h86, h118, h128, h138, h139, h134⟩

/-- The parse of an SPS with an unsupported `profile_idc`: failure, after the
`sps_id` output has been written. -/
theorem h264_parse_sps_unsupported (g : Nat) (buffer : List Nat) (length : Nat) (out : SpsPtrs)
    (profile sps_id : Nat) (hprof : buffer[1]? = some profile)
    (hns : profile ∉ [66, 100, 110, 122, 244, 44, 83, 86, 118, 128, 138, 139, 134])
    (hbits : Stream (buffer.drop 4) 0 (ue sps_id)) (hid : sps_id ≤ 2 ^ 32 - 2) :
    h264_parse_sps g buffer length out =
      some (false, ⟨out.p_width, out.p_height, store out.p_sps_id sps_id⟩) := by
  have hbits' : Stream (buffer.drop 4) 0 (ue sps_id ++ []) := by simpa using hbits
  obtain ⟨e1, _⟩ := Stream_ue hbits' hid
  unfold h264_parse_sps
  rw [hprof]
  simp only [e1, sps_profile_unsupported g profile _ _ hns]

/-- C6: for every SPS NAL whose `profile_idc` (byte 1) is not one of the 13
supported values and whose `sps_id` Exp-Golomb code is readable,
`h264_parse_sps` returns failure, and `parse_rtp_video` on that buffer as a
single type-7 NAL of valid size returns failure and writes no width, height or
sps_id (only the NAL type 7). -/
theorem parse_unsupported_profile_fails (garbage : Nat → Nat) (g : Nat) (buffer : List Nat)
    (length nal_size : Nat) (out : SpsPtrs) (rout : RtpPtrs) (b0 profile sps_id : Nat)
    (hprof : buffer[1]? = some profile)
    (hns : profile ∉ [66, 100, 110, 122, 244, 44, 83, 86, 118, 128, 138, 139, 134])
    (hbits : Stream (buffer.drop 4) 0 (ue sps_id)) (hid : sps_id ≤ 2 ^ 32 - 2)
    (hb0 : buffer[0]? = some b0) (h7 : b0 &&& 0x1f = 7)
    (h1 : 4 ≤ nal_size) (h2 : nal_size < 1500) :
    (h264_parse_sps g buffer length out).map Prod.fst = some false ∧
    parse_rtp_video garbage buffer nal_size rout =
      some (false, ⟨store rout.p_rtp_type 7, rout.p_width, rout.p_height, rout.p_sps_id⟩) := by
  constructor
  · rw [h264_parse_sps_unsupported g buffer length out profile sps_id hprof hns hbits hid]
    rfl
  · unfold parse_rtp_video
    rw [if_neg (by omega), hb0]
    simp only [h7, if_true, rtp_call_sps,
      h264_parse_sps_unsupported (garbage 0) buffer nal_size _ profile sps_id hprof hns hbits hid]
    simp

theorem parse_unsupported_profile_fails_witness :
    (h264_parse_sps 0 [0x67, 77, 0, 0x1e, 0x20] 5 ⟨some 1, some 2, some 3⟩).map Prod.fst
        = some false ∧
    parse_rtp_video (fun _ => 0) [0x67, 77, 0, 0x1e, 0x20] 5 ⟨some 0, some 1, some 2, some 3⟩ =
      some (false, ⟨store (some 0) 7, some 1, some 2, some 3⟩) :=
  parse_unsupported_profile_fails (fun _ => 0) 0 [0x67, 77, 0, 0x1e, 0x20] 5 5
    ⟨some 1, some 2, some 3⟩ ⟨some 0, some 1, some 2, some 3⟩ 0x67 77 3 (by decide) (by decide)
    ⟨by decide, by decide⟩ (by decide) (by decide) (by decide) (by decide) (by decide)

/-- C7 (defect in the code): the test `seq_scaling_list_present_flags > 0`
reads a local that is never assigned, so the outcome follows that
indeterminate value and not the flag bits. On a High-profile SPS (`profile_idc`
100, `chroma_format_idc` 1, `seq_scaling_matrix_present_flag` 1) whose 8 flag
bits are `10000000`, `h264_parse_sps` succeeds (176 x 128) when the local
holds 0; on the same SPS with all 8 flag bits 0 it returns failure when the
local holds 1. -/
theorem h264_parse_sps_scaling_flags_not_tested :
    h264_parse_sps 0 [0x67, 100, 0, 0x1e, 173, 128, 240, 177, 16] 9 ⟨some 0, some 0, some 0⟩ =
      some (true, ⟨some 176, some 128, some 0⟩) ∧
    h264_parse_sps 1 [0x67, 100, 0, 0x1e, 173, 0, 240, 177, 16] 9 ⟨some 0, some 0, some 0⟩ =
      some (false, ⟨some 0, some 0, some 0⟩) := by
  constructor <;> with_unfolding_all rfl

/-- The outcome of `sps_fields` does not depend on what the output pointers
hold: it is undefined for all of them, or stores the same width and height
through all of them. -/
theorem sps_fields_shape (base : List Nat) (c s o : Nat) :
    (∀ out, sps_fields base c s o out = none) ∨
    ∃ w h, ∀ out, sps_fields base c s o out =
      some (true, ⟨store out.p_width w, store out.p_height h, out.p_sps_id⟩) := by
  unfold sps_fields
  rcases h264_eg_decode base o with _ | ⟨a1, o1⟩
  · exact Or.inl (fun _ => rfl)
  dsimp only
  rcases sps_pic_order_cnt base o1 with _ | o2
  · exact Or.inl (fun _ => rfl)
  dsimp only
  rcases h264_eg_decode base o2 with _ | ⟨a3, o3⟩
  · exact Or.inl (fun _ => rfl)
  dsimp only
  rcases getbit_inc base o3 with _ | ⟨a4, o4⟩
  · exact Or.inl (fun _ => rfl)
  dsimp only
  rcases h264_eg_decode base o4 with _ | ⟨a5, o5⟩
  · exact Or.inl (fun _ => rfl)
  dsimp only
  rcases h264_eg_decode base o5 with _ | ⟨a6, o6⟩
  · exact Or.inl (fun _ => rfl)
  dsimp only
  rcases getbit_inc base o6 with _ | ⟨a7, o7⟩
  · exact Or.inl (fun _ => rfl)
  dsimp only
  rcases (if a7 = 0 then getbit_inc base o7 else some (0, o7)) with _ | ⟨a8, o8⟩
  · exact Or.inl (fun _ => rfl)
  dsimp only
  rcases getbit_inc base o8 with _ | ⟨a9, o9⟩
  · exact Or.inl (fun _ => rfl)
  dsimp only
  rcases sps_cropping base o9 with _ | ⟨l, r, t, b, o10⟩
  · exact Or.inl (fun _ => rfl)
  dsimp only
  rcases getbit_inc base o10 with _ | ⟨a11, o11⟩
  · exact Or.inl (fun _ => rfl)
  dsimp only
  exact Or.inr ⟨_, _, fun _ => rfl⟩

/-- The three possible outcomes of `h264_parse_sps`, none of which depends on
`length` or on what the output pointers hold: undefined; failure with only
`sps_id` stored; success with width, height and `sps_id` stored. -/
theorem h264_parse_sps_shape (g : Nat) (buffer : List Nat) :
    (∀ length out, h264_parse_sps g buffer length out = none) ∨
    (∃ i, ∀ length out, h264_parse_sps g buffer length out =
      some (false, ⟨out.p_width, out.p_height, store out.p_sps_id i⟩)) ∨
    (∃ w h i, ∀ length out, h264_parse_sps g buffer length out =
      some (true, ⟨store out.p_width w, store out.p_height h, store out.p_sps_id i⟩)) := by
  unfold h264_parse_sps
  rcases buffer[1]? with _ | profile_idc
  · exact Or.inl (fun _ _ => rfl)
  dsimp only
  rcases h264_eg_decode (List.drop 4 buffer) 0 with _ | ⟨sps_id, o1⟩
  · exact Or.inl (fun _ _ => rfl)
  dsimp only
  rcases sps_profile g profile_idc (List.drop 4 buffer) o1 with _ | _ | ⟨c, s, o2⟩
  · exact Or.inl (fun _ _ => rfl)
  dsimp only
  · exact Or.inr (Or.inl ⟨sps_id, fun _ _ => rfl⟩)
  dsimp only
  rcases sps_fields_shape (List.drop 4 buffer) c s o2 with h | ⟨w, h, hwh⟩
  · exact Or.inl (fun _ out => by simp only [h])
  · exact Or.inr (Or.inr ⟨w, h, sps_id, fun _ out => by simp only [hwh]⟩)

/-- A successful parse stores the same three values through any output pointers. -/
theorem h264_parse_sps_success_any (g : Nat) (buffer : List Nat) (length length' : Nat)
    (a b : Int) (c : Nat) (W H : Int) (S : Nat) (out : SpsPtrs)
    (h : h264_parse_sps g buffer length ⟨some a, some b, some c⟩ =
      some (true, ⟨some W, some H, some S⟩)) :
    h264_parse_sps g buffer length' out =
      some (true, ⟨store out.p_width W, store out.p_height H, store out.p_sps_id S⟩) := by
  rcases h264_parse_sps_shape g buffer with h0 | ⟨i, h1⟩ | ⟨w, h', i, h2⟩
  · rw [h0] at h
    cases h
  · rw [h1] at h
    simp at h
  · rw [h2] at h
    simp only [store, Option.some.injEq, Prod.mk.injEq, SpsPtrs.mk.injEq, true_and] at h
    obtain ⟨rfl, rfl, rfl⟩ := h
    exact h2 length' out

/-- One iteration of the record loop of `parse_rtp_video` on a record whose
2-byte length `b0 b1` is the length of the NAL `t :: body` that follows. -/
theorem rtp_stap_loop_step (garbage : Nat → Nat) (fuel k : Nat) (tot : Int) (b0 b1 t : Nat)
    (body more : List Nat) (st : RtpLocals) (htot : tot > 0)
    (hlen : b0 * 256 + b1 = (t :: body).length) (hsmall : (t :: body).length < 65536) :
    rtp_stap_loop garbage (fuel + 1) k tot (b0 :: b1 :: (t :: body ++ more)) st =
      match (if t &&& 0x1f = 7 then
          rtp_call_sps (garbage k) (t :: body ++ more) (t :: body).length st else some st) with
      | none => none
      | some st1 =>
        rtp_stap_loop garbage fuel (k + 1) (i32 (i32 (tot - 2) - ((t :: body).length : Nat))) more st1 := by
  have hps : ((b0 <<< 8) + b1) % 65536 = (t :: body).length := by
    rw [Nat.shiftLeft_eq, show (2 : Nat) ^ 8 = 256 by norm_num, hlen]
    exact Nat.mod_eq_of_lt hsmall
  have hdrop : List.drop (t :: body).length (t :: (body ++ more)) = more := by
    simp
  rw [rtp_stap_loop, if_pos htot]
  simp only [List.getElem?_cons_zero, List.getElem?_cons_succ, List.drop_succ_cons,
    List.drop_zero, hps, List.cons_append]
  rw [hdrop]

/-- The record loop of `parse_rtp_video` stops as soon as `tot ≤ 0`. -/
theorem rtp_stap_loop_done (garbage : Nat → Nat) (fuel k : Nat) (tot : Int) (buffer : List Nat)
    (st : RtpLocals) (htot : ¬ tot > 0) :
    rtp_stap_loop garbage (fuel + 1) k tot buffer st = some st := by
  rw [rtp_stap_loop, if_neg htot]

theorem rtp_call_sps_success (g : Nat) (buffer : List Nat) (length length' : Nat) (a b : Int)
    (c : Nat) (W H : Int) (S : Nat) (st : RtpLocals)
    (h : h264_parse_sps g buffer length ⟨some a, some b, some c⟩ =
      some (true, ⟨some W, some H, some S⟩)) :
    rtp_call_sps g buffer length' st = some ⟨true, W, H, S⟩ := by
  unfold rtp_call_sps
  rw [h264_parse_sps_success_any g buffer length length' a b c W H S _ h]
  rfl

/-- C8: for every aggregation packet of valid size (low 5 bits of byte 0 are
24) whose payload is exactly two records, each a 2-byte big-endian length
followed by a NAL of that length, the first a non-SPS NAL of length at least 1
and the second an SPS NAL on which `h264_parse_sps` alone succeeds with
`W`, `H`, `S`, `parse_rtp_video` returns success and, through non-NULL width
and height pointers, writes that width, height and sps_id. -/
theorem parse_rtp_video_stap_sps_second (garbage : Nat → Nat) (hdr l1h l1l t1 : Nat)
    (rest1 : List Nat) (l2h l2l t2 : Nat) (rest2 : List Nat) (nal_size : Nat) (rout : RtpPtrs)
    (length : Nat) (a b : Int) (c : Nat) (W H : Int) (S : Nat)
    (h24 : hdr &&& 0x1f = 24)
    (hlen1 : l1h * 256 + l1l = (t1 :: rest1).length) (ht1 : t1 &&& 0x1f ≠ 7)
    (hlen2 : l2h * 256 + l2l = (t2 :: rest2).length) (ht2 : t2 &&& 0x1f = 7)
    (hn : nal_size = (hdr :: l1h :: l1l :: ((t1 :: rest1) ++ l2h :: l2l :: t2 :: rest2)).length)
    (hsize : nal_size < 1500)
    (hsps : h264_parse_sps (garbage 1) (t2 :: rest2) length ⟨some a, some b, some c⟩ =
      some (true, ⟨some W, some H, some S⟩)) :
    parse_rtp_video garbage (hdr :: l1h :: l1l :: ((t1 :: rest1) ++ l2h :: l2l :: t2 :: rest2))
        nal_size rout =
      some (true,
        if rout.p_width.isSome = true ∧ rout.p_height.isSome = true then
          ⟨store rout.p_rtp_type 24, some W, some H, store rout.p_sps_id S⟩
        else ⟨store rout.p_rtp_type 24, rout.p_width, rout.p_height, rout.p_sps_id⟩) := by
  simp only [List.length_cons, List.length_append] at hn hlen1 hlen2
  obtain ⟨f, rfl⟩ : ∃ f, nal_size = f + 1 + 1 + 1 := ⟨nal_size - 3, by omega⟩
  have htot0 : i32 (((f + 1 + 1 + 1 : Nat) : Int) - 1) = ((f + 1 + 1 + 1 : Nat) : Int) - 1 :=
    i32_eq_self (by omega) (by omega)
  have hstep1 := rtp_stap_loop_step garbage (f + 1 + 1) 0 (((f + 1 + 1 + 1 : Nat) : Int) - 1)
    l1h l1l t1 rest1 (l2h :: l2l :: ((t2 :: rest2) ++ [])) ⟨false, 0, 0, 32⟩ (by omega)
    (by simpa using hlen1) (by simp only [List.length_cons]; omega)
  have htot1 : i32 (i32 (((f + 1 + 1 + 1 : Nat) : Int) - 1 - 2) - ((t1 :: rest1).length : Nat)) =
      (rest2.length : Int) + 3 := by
    rw [i32_eq_self (x := ((f + 1 + 1 + 1 : Nat) : Int) - 1 - 2) (by omega) (by omega)]
    simp only [List.length_cons]
    rw [i32_eq_self (by push_cast; omega) (by push_cast; omega)]
    push_cast
    omega
  have hstep2 := rtp_stap_loop_step garbage (f + 1) 1 ((rest2.length : Int) + 3) l2h l2l t2 rest2
    [] ⟨false, 0, 0, 32⟩ (by omega)
    (by simpa using hlen2) (by simp only [List.length_cons]; omega)
  have htot2 : i32 (i32 ((rest2.length : Int) + 3 - 2) - ((t2 :: rest2).length : Nat)) = 0 := by
    rw [i32_eq_self (x := (rest2.length : Int) + 3 - 2) (by omega) (by omega)]
    simp only [List.length_cons]
    rw [i32_eq_self (by push_cast; omega) (by push_cast; omega)]
    push_cast
    omega
  have hcall := rtp_call_sps_success (garbage 1) (t2 :: rest2) length (t2 :: rest2).length a b c
    W H S ⟨false, 0, 0, 32⟩ hsps
  rw [if_neg ht1, htot1] at hstep1
  rw [if_pos ht2, List.append_nil, hcall, htot2] at hstep2
  simp only [] at hstep1 hstep2
  rw [rtp_stap_loop_done garbage f 2 0 [] _ (by decide)] at hstep2
  rw [List.append_nil] at hstep1
  unfold parse_rtp_video
  rw [if_neg (by omega)]
  simp only [List.getElem?_cons_zero, h24, List.drop_succ_cons, List.drop_zero, htot0]
  rw [if_pos trivial, hstep1, hstep2]
  by_cases hp : rout.p_width.isSome = true ∧ rout.p_height.isSome = true
  · simp [hp]
  · simp [hp]

theorem parse_rtp_video_stap_sps_second_witness :
    parse_rtp_video (fun _ => 0)
        (24 :: 0 :: 2 :: ((0x65 :: [9]) ++ 0 :: 7 :: 0x67 :: [66, 0, 0, 248, 88, 136])) 14
        ⟨some 0, some 0, some 0, some 0⟩ =
      some (true,
        if (some (0 : Int)).isSome = true ∧ (some (0 : Int)).isSome = true then
          ⟨store (some 0) 24, some 176, some 128, store (some 0) 0⟩
        else ⟨store (some 0) 24, some 0, some 0, some 0⟩) :=
  parse_rtp_video_stap_sps_second (fun _ => 0) 24 0 2 0x65 [9] 0 7 0x67 [66, 0, 0, 248, 88, 136] 14
    ⟨some 0, some 0, some 0, some 0⟩ 7 0 0 0 176 128 0 (by decide) (by decide) (by decide)
    (by decide) (by decide) (by decide) (by decide) (by with_unfolding_all rfl)

/-! ## Profile block -/

theorem Stream_le_one {base : List Nat} {o : Nat} {bs : List Nat} (h : Stream base o bs) :
    ∀ b ∈ bs, b ≤ 1 := Holds_le_one bs o h.1

theorem Stream_getbits {base : List Nat} {o : Nat} {rest : List Nat} (fl : List Nat)
    (h : Stream base o (fl ++ rest)) (hn : fl.length ≤ 32) :
    h264_eg_getbits base o (fl.length : Int) = some (msb_value fl, o + fl.length) ∧
      Stream base (o + fl.length) rest := by
  obtain ⟨h1, h2⟩ := h
  rw [List.length_append] at h2
  have hb : ∀ b ∈ fl, b ≤ 1 := fun b hb => Holds_le_one _ o h1 b (List.mem_append_left _ hb)
  obtain ⟨h3, h4⟩ := (Holds_append _ _ _ _).1 h1
  refine ⟨?_, h4, by omega⟩
  unfold h264_eg_getbits
  rw [Int.toNat_natCast, eg_bits_spec _ fl o 0 hn (by omega) (by omega) hb h3,
    u32_of_lt (by omega)]
  simp

theorem Stream_profile {base : List Nat} {o : Nat} {rest : List Nat} (g profile : Nat)
    (pf : ProfileFields) (h : Stream base o (pf.bits ++ rest)) (hv : pf.Valid profile g) :
    sps_profile g profile base o = some (some (pf.chroma, pf.colour_plane, o + pf.bits.length)) ∧
      Stream base (o + pf.bits.length) rest := by
  cases pf with
  | baseline =>
    have hp : profile = 66 := hv
    subst hp
    exact ⟨sps_profile_baseline g base o, by simpa [ProfileFields.bits] using h⟩
  | extended c s bl bc q sc =>
    obtain ⟨hprof, hc, hs, hbl, hbc, hsc⟩ := hv
    have h66 : profile ≠ 66 := by
      intro e
      subst e
      simp at hprof
    have hmem : profile = 100 ∨ profile = 110 ∨ profile = 122 ∨ profile = 244 ∨ profile = 44 ∨
        profile = 83 ∨ profile = 86 ∨ profile = 118 ∨ profile = 128 ∨ profile = 138 ∨
        profile = 139 ∨ profile = 134 := by
      simpa using hprof
    simp only [ProfileFields.bits, List.append_assoc, List.cons_append] at h
    obtain ⟨e1, h1⟩ := Stream_ue h hc
    -- separate_colour_plane_flag
    have step2 : ∃ o2, (if c = 3 then getbit_inc base (o + (ue c).length)
          else some (0, o + (ue c).length)) = some (if c = 3 then s else 0, o2) ∧
        o2 = o + (ue c).length + (if c = 3 then [s] else []).length ∧
        Stream base o2 (ue bl ++ (ue bc ++ q :: (scaling_bits sc ++ rest))) := by
      by_cases h3 : c = 3
      · simp only [h3, if_true, List.cons_append, List.nil_append] at h1 ⊢
        obtain ⟨e2, h2⟩ := Stream_bit h1
        exact ⟨_, e2, rfl, h2⟩
      · simp only [h3, if_false, List.nil_append] at h1 ⊢
        exact ⟨_, rfl, rfl, h1⟩
    obtain ⟨o2, e2, ho2, h2⟩ := step2
    obtain ⟨e3, h3⟩ := Stream_ue h2 hbl
    obtain ⟨e4, h4⟩ := Stream_ue h3 hbc
    obtain ⟨e5, h5⟩ := Stream_bit h4
    unfold sps_profile
    rw [if_pos h66, if_pos hmem, e1]
    simp only [e2, e3, e4, e5]
    cases sc with
    | none =>
      simp only [scaling_bits, List.cons_append, List.nil_append] at h5
      obtain ⟨e6, h6⟩ := Stream_bit h5
      simp only [e6, ProfileFields.chroma, ProfileFields.colour_plane, ProfileFields.bits,
        scaling_bits]
      have el : o2 + (ue bl).length + (ue bc).length + 1 + 1 =
          o + (ue c ++ ((if c = 3 then [s] else []) ++ (ue bl ++ (ue bc ++ q :: [0])))).length := by
        simp only [List.length_append, List.length_cons, List.length_nil, ho2]
        omega
      exact ⟨by simp [el], Stream_cast h6 el⟩
    | some fl =>
      obtain ⟨hfl, hg⟩ := hsc
      simp only [scaling_bits, List.cons_append] at h5
      obtain ⟨e6, h6⟩ := Stream_bit h5
      have hfl32 : fl.length ≤ 32 := by
        rw [hfl]
        split <;> omega
      obtain ⟨e7, h7⟩ := Stream_getbits fl h6 hfl32
      have e7' : (if c ≠ 3 then h264_eg_getbits base (o2 + (ue bl).length + (ue bc).length + 1 + 1) 8
          else h264_eg_getbits base (o2 + (ue bl).length + (ue bc).length + 1 + 1) 12) =
          some (msb_value fl, o2 + (ue bl).length + (ue bc).length + 1 + 1 + fl.length) := by
        rw [← e7, hfl]
        by_cases h3 : c = 3
        · simp [h3]
        · simp [h3]
      simp only [e6, e7', hg, ProfileFields.chroma, ProfileFields.colour_plane,
        ProfileFields.bits, scaling_bits]
      have el : o2 + (ue bl).length + (ue bc).length + 1 + 1 + fl.length =
          o + (ue c ++ ((if c = 3 then [s] else []) ++ (ue bl ++ (ue bc ++ q :: 1 :: fl)))).length := by
        simp only [List.length_append, List.length_cons, ho2]
        omega
      exact ⟨by simp [el], Stream_cast h7 el⟩

/-! ## Picture dimensions -/

theorem crop_ints_eq (crop : Option (Nat × Nat × Nat × Nat)) :
    crop_ints crop = (i32 ((crop_nats crop).1 : Int), i32 ((crop_nats crop).2.1 : Int),
      i32 ((crop_nats crop).2.2.1 : Int), i32 ((crop_nats crop).2.2.2 : Int)) := by
  cases crop with
  | none =>
    have e0 : i32 (0 : Int) = 0 := i32_eq_self (by norm_num) (by norm_num)
    simp only [crop_ints, crop_nats, Nat.cast_zero, e0]
  | some c => rfl

/-- The code's scaling of the cropping offsets, in `int`, is `scaled_crop`
whenever the scaled sums fit an `int`. -/
theorem sps_scale_crop_eq (s c f l r t b : Nat) (hs : s ≤ 1) (hf : f ≤ 1)
    (hLR : (scaled_crop s c f (l, r, t, b)).1 + (scaled_crop s c f (l, r, t, b)).2.1 < 2 ^ 31)
    (hTB : (scaled_crop s c f (l, r, t, b)).2.2.1 + (scaled_crop s c f (l, r, t, b)).2.2.2
      < 2 ^ 31) :
    sps_scale_crop s c (i32 (f : Int)) (i32 (l : Int), i32 (r : Int), i32 (t : Int), i32 (b : Int))
      = (((scaled_crop s c f (l, r, t, b)).1 : Int), ((scaled_crop s c f (l, r, t, b)).2.1 : Int),
        ((scaled_crop s c f (l, r, t, b)).2.2.1 : Int),
        ((scaled_crop s c f (l, r, t, b)).2.2.2 : Int)) := by
  have ef : i32 (f : Int) = f := i32_of_lt (by omega)
  have e2f : i32 (2 - (f : Int)) = 2 - (f : Int) := i32_eq_self (by omega) (by omega)
  rw [ef]
  unfold sps_scale_crop scaled_crop at *
  by_cases h1 : s = 1 ∨ c = 0
  · have h1' : s ≠ 0 ∨ c = 0 := by omega
    simp only [h1, if_true] at hLR hTB ⊢
    have hff : f = 0 ∨ f = 1 := by omega
    rw [if_pos h1', e2f]
    rcases hff with rfl | rfl
    · simp only [Nat.sub_zero] at hTB
      rw [i32_of_lt (x := l) (by omega), i32_of_lt (x := r) (by omega),
        i32_of_lt (x := t) (by omega), i32_of_lt (x := b) (by omega),
        i32_eq_self (x := (b : Int) * (2 - ((0 : Nat) : Int))) (by push_cast; omega)
          (by push_cast; omega),
        i32_eq_self (x := (t : Int) * (2 - ((0 : Nat) : Int))) (by push_cast; omega)
          (by push_cast; omega)]
      push_cast
      simp
    · simp only [show 2 - 1 = 1 from rfl, Nat.mul_one] at hTB
      rw [i32_of_lt (x := l) (by omega), i32_of_lt (x := r) (by omega),
        i32_of_lt (x := t) (by omega), i32_of_lt (x := b) (by omega),
        i32_eq_self (x := (b : Int) * (2 - ((1 : Nat) : Int))) (by push_cast; omega)
          (by push_cast; omega),
        i32_eq_self (x := (t : Int) * (2 - ((1 : Nat) : Int))) (by push_cast; omega)
          (by push_cast; omega)]
      push_cast
      simp
  · have h1' : ¬ (s ≠ 0 ∨ c = 0) := by omega
    have h2 : s = 0 ∧ c > 0 := by omega
    simp only [h1, if_false] at hLR hTB ⊢
    rw [if_neg h1', if_pos h2]
    by_cases c1 : c = 1
    · subst c1
      simp only [if_true] at hLR hTB ⊢
      rw [i32_of_lt (x := l) (by omega), i32_of_lt (x := r) (by omega),
        i32_of_lt (x := t) (by omega), i32_of_lt (x := b) (by omega)]
      simp only [true_or, if_true]
      rw [i32_eq_self (x := (l : Int) * 2) (by omega) (by omega),
        i32_eq_self (x := (r : Int) * 2) (by omega) (by omega),
        i32_eq_self (x := (t : Int) * 2) (by omega) (by omega),
        i32_eq_self (x := (b : Int) * 2) (by omega) (by omega)]
      push_cast
      simp [Int.mul_comm]
    · by_cases c2 : c = 2
      · subst c2
        simp only [if_true, if_neg c1] at hLR hTB ⊢
        rw [i32_of_lt (x := l) (by omega), i32_of_lt (x := r) (by omega),
          i32_of_lt (x := t) (by omega), i32_of_lt (x := b) (by omega)]
        simp only [or_true, if_true]
        rw [i32_eq_self (x := (l : Int) * 2) (by omega) (by omega),
          i32_eq_self (x := (r : Int) * 2) (by omega) (by omega)]
        push_cast
        simp [Int.mul_comm]
      · simp only [if_neg c1, if_neg c2] at hLR hTB ⊢
        rw [i32_of_lt (x := l) (by omega), i32_of_lt (x := r) (by omega),
          i32_of_lt (x := t) (by omega), i32_of_lt (x := b) (by omega)]
        simp [c1, c2]

theorem sps_width_eq (w L R : Nat) (hw : 16 * (w + 1) < 2 ^ 31) (hLR : L + R < 2 ^ 31) :
    sps_width (i32 (w : Int)) (L : Int) (R : Int) = 16 * ((w : Int) + 1) - ((L : Int) + R) := by
  unfold sps_width
  rw [i32_eq_self (x := (w : Int)) (by omega) (by omega),
    i32_eq_self (x := (w : Int) + 1) (by omega) (by omega),
    i32_eq_self (x := ((w : Int) + 1) * 16) (by omega) (by omega),
    i32_eq_self (x := (L : Int) + R) (by omega) (by omega),
    i32_eq_self (by omega) (by omega)]
  omega

theorem sps_height_eq (f h T B : Nat) (hf : f ≤ 1) (hh : (2 - f) * 16 * (h + 1) < 2 ^ 31)
    (hTB : T + B < 2 ^ 31) :
    sps_height (i32 (f : Int)) (i32 (h : Int)) (T : Int) (B : Int) =
      (2 - (f : Int)) * 16 * ((h : Int) + 1) - ((T : Int) + B) := by
  unfold sps_height
  have hff : f = 0 ∨ f = 1 := by omega
  rcases hff with rfl | rfl
  · simp only [Nat.sub_zero] at hh
    rw [i32_of_lt (x := 0) (by norm_num), i32_eq_self (x := (h : Int)) (by omega) (by omega),
      i32_eq_self (x := 2 - ((0 : Nat) : Int)) (by norm_num) (by norm_num),
      i32_eq_self (x := (h : Int) + 1) (by omega) (by omega),
      i32_eq_self (x := (2 - ((0 : Nat) : Int)) * ((h : Int) + 1)) (by push_cast; omega)
        (by push_cast; omega),
      i32_eq_self (x := (2 - ((0 : Nat) : Int)) * ((h : Int) + 1) * 16) (by push_cast; omega)
        (by push_cast; omega),
      i32_eq_self (x := (T : Int) + B) (by omega) (by omega),
      i32_eq_self (by push_cast; omega) (by push_cast; omega)]
    push_cast
    omega
  · simp only [show 2 - 1 = 1 from rfl, Nat.one_mul] at hh
    rw [i32_of_lt (x := 1) (by norm_num), i32_eq_self (x := (h : Int)) (by omega) (by omega),
      i32_eq_self (x := 2 - ((1 : Nat) : Int)) (by norm_num) (by norm_num),
      i32_eq_self (x := (h : Int) + 1) (by omega) (by omega),
      i32_eq_self (x := (2 - ((1 : Nat) : Int)) * ((h : Int) + 1)) (by push_cast; omega)
        (by push_cast; omega),
      i32_eq_self (x := (2 - ((1 : Nat) : Int)) * ((h : Int) + 1) * 16) (by push_cast; omega)
        (by push_cast; omega),
      i32_eq_self (x := (T : Int) + B) (by omega) (by omega),
      i32_eq_self (by push_cast; omega) (by push_cast; omega)]
    push_cast
    omega

/-- The parse of any SPS whose fields are all readable: success, with the
width and height that the code's `int` arithmetic gives on the decoded fields. -/
theorem h264_parse_sps_fields (g : Nat) (buffer : List Nat) (length : Nat) (out : SpsPtrs)
    (profile sps_id : Nat) (pf : ProfileFields) (l2 : Nat) (poc : PocFields)
    (mr gaps w h f mbaff d8 : Nat) (crop : Option (Nat × Nat × Nat × Nat)) (vui : Nat)
    (hprof : buffer[1]? = some profile) (hpf : pf.Valid profile g)
    (hbits : Stream (buffer.drop 4) 0
      (ue sps_id ++ (pf.bits ++ sps_tail_bits l2 poc mr gaps w h f mbaff d8 crop vui)))
    (hid : sps_id ≤ 2 ^ 32 - 2) (hl2 : l2 ≤ 2 ^ 32 - 2) (hpoc : poc.Valid)
    (hmr : mr ≤ 2 ^ 32 - 2) (hw : w ≤ 2 ^ 32 - 2) (hh : h ≤ 2 ^ 32 - 2) (hf : f ≤ 1)
    (hcrop : CropValid crop) :
    h264_parse_sps g buffer length out = some (true,
      ⟨store out.p_width (sps_width (i32 (w : Int))
          (sps_scale_crop pf.colour_plane pf.chroma (i32 (f : Int)) (crop_ints crop)).1
          (sps_scale_crop pf.colour_plane pf.chroma (i32 (f : Int)) (crop_ints crop)).2.1),
        store out.p_height (sps_height (i32 (f : Int)) (i32 (h : Int))
          (sps_scale_crop pf.colour_plane pf.chroma (i32 (f : Int)) (crop_ints crop)).2.2.1
          (sps_scale_crop pf.colour_plane pf.chroma (i32 (f : Int)) (crop_ints crop)).2.2.2),
        store out.p_sps_id sps_id⟩) := by
  obtain ⟨e1, h1⟩ := Stream_ue hbits hid
  rw [Nat.zero_add] at e1 h1
  obtain ⟨e2, h2⟩ := Stream_profile g profile pf h1 hpf
  have e3 := sps_fields_spec pf.chroma pf.colour_plane
    { out with p_sps_id := store out.p_sps_id sps_id }
    l2 poc mr gaps w h f mbaff d8 crop vui h2 hl2 hpoc hmr hw hh hf hcrop
  unfold h264_parse_sps
  rw [hprof]
  simp only [e1, e2, e3]

/-- C11: for every SPS NAL whose fields are all readable (so that
`h264_parse_sps` parses it successfully), with decoded
`pic_width_in_mbs_minus1 = w`, `pic_height_in_map_units_minus1 = h`,
`frame_mbs_only_flag = f`, `chroma_format_idc = c` (1 for baseline),
`separate_colour_plane_flag = s` and cropping offsets `l, r, t, b` (all 0 when
`frame_cropping_flag = 0`), and with `16 * (w + 1)`, `(2 - f) * 16 * (h + 1)`,
`L + R` and `T + B` below `2 ^ 31`: width is `16 * (w + 1) - (L + R)` and height
is `(2 - f) * 16 * (h + 1) - (T + B)`, where `(L, R, T, B)` is `scaled_crop`:
`(l, r, t * (2 - f), b * (2 - f))` if `s = 1` or `c = 0`; `(2l, 2r, 2t, 2b)` if
`s = 0` and `c = 1`; `(2l, 2r, t, b)` if `s = 0` and `c = 2`; unscaled otherwise. -/
theorem h264_parse_sps_cropped_dimensions (g : Nat) (buffer : List Nat) (length : Nat)
    (out : SpsPtrs) (profile sps_id : Nat) (pf : ProfileFields) (l2 : Nat) (poc : PocFields)
    (mr gaps w h f mbaff d8 : Nat) (crop : Option (Nat × Nat × Nat × Nat)) (vui : Nat)
    (hprof : buffer[1]? = some profile) (hpf : pf.Valid profile g)
    (hbits : Stream (buffer.drop 4) 0
      (ue sps_id ++ (pf.bits ++ sps_tail_bits l2 poc mr gaps w h f mbaff d8 crop vui)))
    (hid : sps_id ≤ 2 ^ 32 - 2) (hl2 : l2 ≤ 2 ^ 32 - 2) (hpoc : poc.Valid)
    (hmr : mr ≤ 2 ^ 32 - 2) (hf : f ≤ 1) (hcrop : CropValid crop)
    (hW : 16 * (w + 1) < 2 ^ 31) (hH : (2 - f) * 16 * (h + 1) < 2 ^ 31)
    (hLR : (scaled_crop pf.colour_plane pf.chroma f (crop_nats crop)).1 +
      (scaled_crop pf.colour_plane pf.chroma f (crop_nats crop)).2.1 < 2 ^ 31)
    (hTB : (scaled_crop pf.colour_plane pf.chroma f (crop_nats crop)).2.2.1 +
      (scaled_crop pf.colour_plane pf.chroma f (crop_nats crop)).2.2.2 < 2 ^ 31) :
    h264_parse_sps g buffer length out = some (true,
      ⟨store out.p_width (16 * ((w : Int) + 1) -
          (((scaled_crop pf.colour_plane pf.chroma f (crop_nats crop)).1 : Int) +
            (scaled_crop pf.colour_plane pf.chroma f (crop_nats crop)).2.1)),
        store out.p_height ((2 - (f : Int)) * 16 * ((h : Int) + 1) -
          (((scaled_crop pf.colour_plane pf.chroma f (crop_nats crop)).2.2.1 : Int) +
            (scaled_crop pf.colour_plane pf.chroma f (crop_nats crop)).2.2.2)),
        store out.p_sps_id sps_id⟩) := by
  have hs : pf.colour_plane ≤ 1 := by
    cases pf with
    | baseline => exact Nat.zero_le 1
    | extended c s bl bc q sc =>
      obtain ⟨_, _, hs, _⟩ := hpf
      show (if c = 3 then s else 0) ≤ 1
      split <;> omega
  have hhb : (2 - f) * 16 * (h + 1) ≥ h := by
    have : 1 ≤ 2 - f := by omega
    nlinarith
  rw [h264_parse_sps_fields g buffer length out profile sps_id pf l2 poc mr gaps w h f mbaff d8
    crop vui hprof hpf hbits hid hl2 hpoc hmr (by omega) (by omega) hf hcrop,
    crop_ints_eq]
  generalize crop_nats crop = cn at hLR hTB ⊢
  obtain ⟨l, r, t, b⟩ := cn
  rw [sps_scale_crop_eq pf.colour_plane pf.chroma f l r t b hs hf hLR hTB,
    sps_width_eq w _ _ hW hLR, sps_height_eq f h _ _ hf hH hTB]

theorem h264_parse_sps_cropped_dimensions_witness :
    h264_parse_sps 0 [0x67, 100, 0, 0x28, 172, 232, 7, 128, 34, 126, 80] 11
        ⟨some 0, some 0, some 0⟩ =
      some (true, ⟨some 1920, some 1080, some 0⟩) :=
  h264_parse_sps_cropped_dimensions 0 [0x67, 100, 0, 0x28, 172, 232, 7, 128, 34, 126, 80] 11
    ⟨some 0, some 0, some 0⟩ 100 0 (.extended 1 0 0 0 0 none) 0 (.type0 0) 1 0 119 67 1 0 1
    (some (0, 0, 0, 4)) 0 (by decide)
    ⟨by decide, by decide, by decide, by decide, by decide, trivial⟩
    ⟨by decide, by decide⟩ (by decide) (by decide) (Nat.zero_le _) (by decide) (by decide)
    ⟨by decide, by decide, by decide, by decide⟩ (by decide) (by decide) (by decide) (by decide)

/-- C20: the cropping offsets are not checked against the picture size. On the
baseline SPS `67 42 00 1e fb a6 36` (`pic_width_in_mbs_minus1 = 0`,
`frame_cropping_flag = 1`, left and right offsets 5, all fields inside the
buffer) `h264_parse_sps` and `parse_rtp_video` return success with width
`16 - 20 = -4`. -/
theorem parse_sps_negative_width :
    Stream (List.drop 4 [0x67, 66, 0, 0x1e, 251, 166, 54]) 0
      (ue 0 ++ sps_tail_bits 0 (.type0 0) 0 0 0 0 1 0 0 (some (5, 5, 0, 0)) 0) ∧
    h264_parse_sps 0 [0x67, 66, 0, 0x1e, 251, 166, 54] 7 ⟨some 0, some 0, some 0⟩ =
      some (true, ⟨some (-4), some 16, some 0⟩) ∧
    parse_rtp_video (fun _ => 0) [0x67, 66, 0, 0x1e, 251, 166, 54] 7
        ⟨some 0, some 0, some 0, some 0⟩ =
      some (true, ⟨some 7, some (-4), some 16, some 0⟩) ∧
    (-4 : Int) = 16 - 20 := by
  refine ⟨⟨by decide, by decide⟩, ?_, ?_, by decide⟩
  · with_unfolding_all rfl
  · with_unfolding_all rfl

/-! ## Fixed-width reads -/

theorem getbit_eq_bit_at (base : List Nat) (k : Nat) (hk : k < 8 * base.length) :
    h264_eg_getbit base k = some (bit_at base k) := by
  have hi : k / 8 < base.length := by omega
  have e3 : k >>> 3 = k / 8 := by
    rw [Nat.shiftRight_eq_div_pow]
  have e7 : k &&& 7 = k % 8 := Nat.and_pow_two_sub_one_eq_mod k 3
  unfold h264_eg_getbit bit_at
  rw [e3, e7, List.getElem?_eq_getElem hi]
  simp only [Nat.and_one_is_mod, Nat.shiftRight_eq_div_pow]
  rw [List.getD_eq_getElem?_getD, List.getElem?_eq_getElem hi]
  rfl

theorem Holds_of_forall (bit : Nat → Option Nat) (bs : List Nat) :
    ∀ o, (∀ j (h : j < bs.length), bit (o + j) = some (bs[j])) → Holds bit o bs := by
  induction bs with
  | nil => intro _ _; trivial
  | cons b bs ih =>
    intro o h
    refine ⟨by simpa using h 0 (by simp), ih (o + 1) ?_⟩
    intro j hj
    have := h (j + 1) (by simpa using hj)
    rw [show o + 1 + j = o + (j + 1) by omega]
    simpa using this

theorem msb_value_map_range (f : Nat → Nat) (n : Nat) :
    msb_value ((List.range n).map f) =
      ((List.range n).map (fun j => f j * 2 ^ (n - 1 - j))).sum := by
  induction n generalizing f with
  | zero => rfl
  | succ n ih =>
    rw [List.range_succ_eq_map]
    simp only [List.map_cons, List.map_map, msb_value, List.length_map, List.length_range,
      List.sum_cons]
    have := ih (f ∘ Nat.succ)
    rw [this]
    congr 1
    congr 1
    apply List.map_congr_left
    intro j _
    simp only [Function.comp_apply, Nat.succ_eq_add_one]
    congr 2
    omega

/-- C12: for every `n ≤ 32`, every buffer and every cursor `o` with `o + n`
within the buffer's bit length (and a `uint32_t`), `h264_eg_getbits` returns
the sum over `j < n` of `bit (o + j) * 2 ^ (n - 1 - j)` (first bit most
significant, 0 when `n = 0`) and advances the cursor by exactly `n`, where
`bit k` is bit `7 - k mod 8` of byte `k div 8`, the value `h264_eg_getbit`
returns at `k`. -/
theorem h264_eg_getbits_msb_first (base : List Nat) (o n : Nat) (hn : n ≤ 32)
    (hb : o + n ≤ 8 * base.length) (ho : o + n < 2 ^ 32) :
    h264_eg_getbits base o (n : Int) =
      some (((List.range n).map (fun j => bit_at base (o + j) * 2 ^ (n - 1 - j))).sum, o + n) ∧
    ∀ k, k < 8 * base.length → h264_eg_getbit base k = some (bit_at base k) := by
  refine ⟨?_, getbit_eq_bit_at base⟩
  have hlen : ((List.range n).map (fun j => bit_at base (o + j))).length = n := by simp
  have hH : Holds (h264_eg_getbit base) o ((List.range n).map (fun j => bit_at base (o + j))) := by
    apply Holds_of_forall
    intro j hj
    rw [hlen] at hj
    rw [getbit_eq_bit_at base (o + j) (by omega)]
    simp
  have hS : Stream base o ((List.range n).map (fun j => bit_at base (o + j)) ++ []) := by
    refine ⟨by simpa using hH, ?_⟩
    simp only [List.append_nil, hlen]
    exact ho
  have := (Stream_getbits _ hS (by rw [hlen]; exact hn)).1
  rw [hlen, msb_value_map_range] at this
  exact this

theorem h264_eg_getbits_msb_first_witness :
    h264_eg_getbits [0xa5, 0x3c] 3 ((7 : Nat) : Int) = some (20, 10) :=
  (h264_eg_getbits_msb_first [0xa5, 0x3c] 3 7 (by decide) (by decide) (by decide)).1

/-! ## RBSP de-escaping of escape-free input -/

theorem filterMap_getElem?_range (l : List Nat) :
    (List.range l.length).filterMap (fun j => l[j]?) = l := by
  induction l with
  | nil => rfl
  | cons a l ih =>
    rw [List.length_cons, List.range_succ_eq_map, List.filterMap_cons_some (b := a) (by simp),
      List.filterMap_map]
    have e : ((fun j => (a :: l)[j]?) ∘ Nat.succ) = fun j => l[j]? := by
      funext j
      simp
    rw [e, ih]

theorem rbsp_strip_of_no_escape (data : List Nat) (h : ∀ i, rbsp_escape_at data i = false) :
    rbsp_strip data = data := by
  unfold rbsp_strip
  have : (fun j => if 2 ≤ j ∧ rbsp_escape_at data (j - 2) = true then none else data[j]?) =
      fun j => data[j]? := by
    funext j
    rw [if_neg]
    rw [h (j - 2)]
    simp
  rw [this, filterMap_getElem?_range]

theorem no_escape_of_count_zero (data : List Nat) (h : rbsp_escape_count data = 0) :
    ∀ i, rbsp_escape_at data i = false := by
  intro i
  by_contra hc
  simp only [Bool.not_eq_false] at hc
  have hlt := rbsp_escape_at_lt hc
  unfold rbsp_escape_count at h
  have := List.countP_eq_zero.1 h i (List.mem_range.2 (by omega))
  exact this hc

/-- C13: for every input byte sequence that contains no three consecutive
bytes `00 00 03` (the count of such positions is 0), `h264_parse_rbsp` returns
the input unchanged (same length, same bytes), so applying it any number `k`
of times gives the same result. -/
theorem h264_parse_rbsp_no_escape (data : List Nat) (h : rbsp_escape_count data = 0) :
    h264_parse_rbsp data data.length = some data ∧
    ∀ k : Nat, (fun x : Option (List Nat) => x.bind (fun d => h264_parse_rbsp d d.length))^[k]
      (some data) = some data := by
  have h1 : h264_parse_rbsp data data.length = some data := by
    unfold h264_parse_rbsp
    rw [rbsp_loop_spec data (data.length + 1) 0 [] (Nat.zero_le _) (by omega)
      (fun k hk _ => absurd hk (Nat.not_lt_zero k))]
    have := rbsp_strip_of_no_escape data (no_escape_of_count_zero data h)
    unfold rbsp_strip at this
    rw [List.range_eq_range'] at this
    simp only [List.nil_append, Nat.sub_zero, this]
  refine ⟨h1, ?_⟩
  intro k
  induction k with
  | zero => rfl
  | succ k ih =>
    rw [Function.iterate_succ_apply', ih]
    exact h1

theorem h264_parse_rbsp_no_escape_witness :
    h264_parse_rbsp [0, 0, 1, 3, 0, 0, 0, 2] [0, 0, 1, 3, 0, 0, 0, 2].length =
      some [0, 0, 1, 3, 0, 0, 0, 2] ∧
    (fun x : Option (List Nat) => x.bind (fun d => h264_parse_rbsp d d.length))^[3]
      (some [0, 0, 1, 3, 0, 0, 0, 2]) = some [0, 0, 1, 3, 0, 0, 0, 2] :=
  ⟨(h264_parse_rbsp_no_escape [0, 0, 1, 3, 0, 0, 0, 2] (by decide)).1,
    (h264_parse_rbsp_no_escape [0, 0, 1, 3, 0, 0, 0, 2] (by decide)).2 3⟩

/-! ## Outputs on failure, and the PPS parser -/

/-- C14 as stated fails: on the SPS `67 4d 00 1e 20` (unsupported
`profile_idc` 77, `sps_id` 3) `h264_parse_sps` returns failure and has
overwritten the `sps_id` output (99 before the call) with 3. -/
theorem h264_parse_sps_failure_writes_sps_id :
    h264_parse_sps 0 [0x67, 77, 0, 0x1e, 0x20] 5 ⟨some 1, some 2, some 99⟩ =
      some (false, ⟨some 1, some 2, some 3⟩) ∧ (some 3 : Option Nat) ≠ some 99 := by
  constructor
  · with_unfolding_all rfl
  · decide

/-- C14 (amended): whenever `h264_parse_sps` returns failure it has left width
and height exactly as they were before the call, and has stored the decoded
`seq_parameter_set_id` through `p_sps_id` when that pointer is not NULL (the
store follows the decode at once, before the profile check). -/
theorem h264_parse_sps_failure_outputs (g : Nat) (buffer : List Nat) (length : Nat)
    (out r : SpsPtrs) (h : h264_parse_sps g buffer length out = some (false, r)) :
    r.p_width = out.p_width ∧ r.p_height = out.p_height ∧
    (h264_eg_decode (buffer.drop 4) 0).isSome = true ∧
    r.p_sps_id = store out.p_sps_id ((h264_eg_decode (buffer.drop 4) 0).getD (0, 0)).1 := by
  unfold h264_parse_sps at h
  cases hb : buffer[1]? with
  | none => simp [hb] at h
  | some profile_idc =>
    cases hd : h264_eg_decode (List.drop 4 buffer) 0 with
    | none => simp [hb, hd] at h
    | some p =>
      obtain ⟨sps_id, o1⟩ := p
      cases hp : sps_profile g profile_idc (List.drop 4 buffer) o1 with
      | none => simp [hb, hd, hp] at h
      | some q =>
        cases q with
        | none =>
          simp only [hb, hd, hp, Option.some.injEq, Prod.mk.injEq, true_and] at h
          subst h
          exact ⟨rfl, rfl, rfl, rfl⟩
        | some x =>
          obtain ⟨c, s, o2⟩ := x
          simp only [hb, hd, hp] at h
          rcases sps_fields_shape (List.drop 4 buffer) c s o2 with h0 | ⟨w, h', hwh⟩
          · rw [h0] at h
            cases h
          · rw [hwh] at h
            simp at h

theorem h264_parse_sps_failure_outputs_witness :
    (⟨some 1, some 2, some 3⟩ : SpsPtrs).p_width = (⟨some 1, some 2, some 99⟩ : SpsPtrs).p_width ∧
    (⟨some 1, some 2, some 3⟩ : SpsPtrs).p_height = (⟨some 1, some 2, some 99⟩ : SpsPtrs).p_height ∧
    (h264_eg_decode (List.drop 4 [0x67, 77, 0, 0x1e, 0x20]) 0).isSome = true ∧
    (⟨some 1, some 2, some 3⟩ : SpsPtrs).p_sps_id =
      store (⟨some 1, some 2, some 99⟩ : SpsPtrs).p_sps_id
        ((h264_eg_decode (List.drop 4 [0x67, 77, 0, 0x1e, 0x20]) 0).getD (0, 0)).1 :=
  h264_parse_sps_failure_outputs 0 [0x67, 77, 0, 0x1e, 0x20] 5 ⟨some 1, some 2, some 99⟩
    ⟨some 1, some 2, some 3⟩ (by with_unfolding_all rfl)

/-- C15: for every PPS NAL whose bytes from offset 1 hold the Exp-Golomb code
of `a` followed by the Exp-Golomb code of `b` (`a, b ≤ 2 ^ 32 - 2`), both
readable, `h264_parse_pps` returns success with `pps_id = a` and `sps_id = b`,
whatever the two values are. -/
theorem h264_parse_pps_ids (data : List Nat) (length : Nat) (p_pps_id p_sps_id : Option Nat)
    (a b : Nat) (ha : a ≤ 2 ^ 32 - 2) (hb : b ≤ 2 ^ 32 - 2)
    (hbits : Stream (data.drop 1) 0 (ue a ++ ue b)) :
    h264_parse_pps data length p_pps_id p_sps_id =
      some (true, store p_pps_id a, store p_sps_id b) := by
  have hbits' : Stream (data.drop 1) 0 (ue a ++ (ue b ++ [])) := by simpa using hbits
  obtain ⟨e1, h1⟩ := Stream_ue hbits' ha
  obtain ⟨e2, _⟩ := Stream_ue h1 hb
  unfold h264_parse_pps
  simp only [e1, e2]

theorem h264_parse_pps_ids_witness :
    h264_parse_pps [0x68, 0x20, 0xb0] 3 (some 0) (some 0) =
      some (true, store (some 0) 3, store (some 0) 10) :=
  h264_parse_pps_ids [0x68, 0x20, 0xb0] 3 (some 0) (some 0) 3 10 (by decide) (by decide)
    ⟨by decide, by decide⟩

/-! ## Reads past the end of the buffer -/

/-- C16 (defect in the code): the bit reader has no bounds check. On the
6-byte SPS `67 42 00 1e 00 00`, whose 16 field bits are all zero, the zero
count of `h264_eg_decode` asks `h264_eg_getbit` for bit 16 = 8 * 2, outside the
buffer, so the parse has no defined result instead of returning failure; with
five more bytes of memory behind the same 6-byte NAL it returns success
(176 x 128, `sps_id` 65535) read from those bytes. `h264_parse_pps` does the
same on the 2-byte PPS `68 00`. -/
theorem truncated_nal_read_past_end :
    Holds (h264_eg_getbit (List.drop 4 [0x67, 66, 0, 0x1e, 0, 0])) 0 (List.replicate 16 0) ∧
    h264_eg_getbit (List.drop 4 [0x67, 66, 0, 0x1e, 0, 0]) 16 = none ∧
    h264_parse_sps 0 [0x67, 66, 0, 0x1e, 0, 0] 6 ⟨some 0, some 0, some 0⟩ = none ∧
    h264_parse_sps 0 ([0x67, 66, 0, 0x1e, 0, 0] ++ [128, 0, 120, 88, 136]) 6
        ⟨some 0, some 0, some 0⟩ = some (true, ⟨some 176, some 128, some 65535⟩) ∧
    h264_parse_pps [0x68, 0] 2 (some 0) (some 0) = none ∧
    h264_parse_pps ([0x68, 0] ++ [0x80, 0xc0]) 2 (some 0) (some 0) =
      some (true, some 256, some 0) := by
  refine ⟨by decide, by decide, ?_, ?_, ?_, ?_⟩ <;> with_unfolding_all rfl

/-- C17 (defect in the code): the record loop of `parse_rtp_video` checks
neither that 2 bytes remain for a length field nor that a declared length fits
the bytes that remain. The 4-byte packet `18 00 00 00` leaves 1 byte after its
first record and the loop reads bytes 4 and 5: no defined result, and success
(176 x 128) when an SPS record lies in the memory behind the 4 bytes. The
13-byte packet whose second record declares 65535 bytes returns success from
its first record. The 9-byte packet whose SPS record declares 9 bytes where 6
remain is parsed past its end. -/
theorem stap_length_not_validated :
    parse_rtp_video (fun _ => 0) [24, 0, 0, 0] 4 ⟨some 0, some 0, some 0, some 0⟩ = none ∧
    parse_rtp_video (fun _ => 0) ([24, 0, 0, 0] ++ [7, 0x67, 66, 0, 0, 248, 88, 136]) 4
        ⟨some 0, some 0, some 0, some 0⟩ =
      some (true, ⟨some 24, some 176, some 128, some 0⟩) ∧
    parse_rtp_video (fun _ => 0) [24, 0, 7, 0x67, 66, 0, 0, 248, 88, 136, 0xff, 0xff, 0x65] 13
        ⟨some 0, some 0, some 0, some 0⟩ =
      some (true, ⟨some 24, some 176, some 128, some 0⟩) ∧
    parse_rtp_video (fun _ => 0) [24, 0, 9, 0x67, 66, 0, 0, 248, 88] 9
        ⟨some 0, some 0, some 0, some 0⟩ = none ∧
    parse_rtp_video (fun _ => 0) ([24, 0, 9, 0x67, 66, 0, 0, 248, 88] ++ [136]) 9
        ⟨some 0, some 0, some 0, some 0⟩ =
      some (true, ⟨some 24, some 176, some 128, some 0⟩) := by
  refine ⟨?_, ?_, ?_, ?_, ?_⟩ <;> with_unfolding_all rfl

/-! ## Termination of the record loop -/

/-- The loop of the model and the loop with a visible budget agree. -/
theorem rtp_stap_run_agrees (garbage : Nat → Nat) :
    ∀ (fuel k : Nat) (tot : Int) (buffer : List Nat) (st : RtpLocals),
      rtp_stap_loop garbage fuel k tot buffer st =
        (rtp_stap_run garbage fuel k tot buffer st).bind (fun r => r.map Prod.fst) := by
  intro fuel
  induction fuel with
  | zero => intro k tot buffer st; rfl
  | succ fuel ih =>
    intro k tot buffer st
    unfold rtp_stap_loop rtp_stap_run
    by_cases htot : tot > 0
    · rw [if_pos htot, if_pos htot]
      cases h0 : buffer[0]? with
      | none => rfl
      | some b0 =>
        cases h1 : buffer[1]? with
        | none => rfl
        | some b1 =>
          dsimp only
          cases h2 : (List.drop 2 buffer)[0]? with
          | none => rfl
          | some t =>
            dsimp only
            cases h3 : (if t &&& 31 = 7 then
                rtp_call_sps (garbage k) (List.drop 2 buffer) ((b0 <<< 8 + b1) % 65536) st
              else some st) with
            | none => rfl
            | some st1 =>
              dsimp only
              exact ih _ _ _ _
    · rw [if_neg htot, if_neg htot]
      rfl

/-- One iteration lowers `tot` by `2 + psize`. -/
theorem rtp_stap_run_step (garbage : Nat → Nat) (fuel k : Nat) (tot : Int) (b0 b1 : Nat)
    (rest : List Nat) (st : RtpLocals) (h0 : 0 < tot) (h1 : tot < 2 ^ 31) :
    rtp_stap_run garbage (fuel + 1) k tot (b0 :: b1 :: rest) st = some none ∨
    ∃ st1, rtp_stap_run garbage (fuel + 1) k tot (b0 :: b1 :: rest) st =
      rtp_stap_run garbage fuel (k + 1) (tot - ((2 : Int) + ((((b0 <<< 8) + b1) % 65536 : Nat) : Int)))
        (rest.drop (((b0 <<< 8) + b1) % 65536)) st1 := by
  have hp : (b0 <<< 8 + b1) % 65536 < 65536 := Nat.mod_lt _ (by norm_num)
  have e1 : i32 (tot - 2) = tot - 2 := i32_eq_self (by omega) (by omega)
  have e2 : i32 (tot - (2 : Int) - (((b0 <<< 8 + b1) % 65536 : Nat) : Int)) =
      tot - ((2 : Int) + (((b0 <<< 8 + b1) % 65536 : Nat) : Int)) := by
    rw [i32_eq_self (by omega) (by omega)]
    omega
  rw [rtp_stap_run, if_pos h0]
  simp only [List.getElem?_cons_zero, List.getElem?_cons_succ, List.drop_succ_cons,
    List.drop_zero, e1, e2]
  cases h2 : rest[0]? with
  | none => exact Or.inl rfl
  | some t =>
    dsimp only
    cases h3 : (if t &&& 31 = 7 then
        rtp_call_sps (garbage k) rest ((b0 <<< 8 + b1) % 65536) st else some st) with
    | none => exact Or.inl rfl
    | some st1 => exact Or.inr ⟨st1, rfl⟩

/-- With a budget of at least `ceil(tot / 2) + 1` the loop never runs out of
budget, and it visits at most `ceil(tot / 2)` records. -/
theorem rtp_stap_run_bound (garbage : Nat → Nat) :
    ∀ (fuel k : Nat) (tot : Int) (buffer : List Nat) (st : RtpLocals),
      1 ≤ fuel → tot ≤ 2 * ((fuel : Int) - 1) → tot < 2 ^ 31 →
      ∃ r, rtp_stap_run garbage fuel k tot buffer st = some r ∧
        ∀ st1 k1, r = some (st1, k1) →
          (tot ≤ 0 → k1 = k) ∧ (0 < tot → 2 * ((k1 : Int) - k) ≤ tot + 1) := by
  intro fuel
  induction fuel with
  | zero => intro k tot buffer st h; omega
  | succ fuel ih =>
    intro k tot buffer st _ hfuel hlt
    by_cases htot : tot > 0
    · have hp : ∀ b0 b1 : Nat, (b0 <<< 8 + b1) % 65536 < 65536 :=
        fun b0 b1 => Nat.mod_lt _ (by norm_num)
      unfold rtp_stap_run
      rw [if_pos htot]
      cases h0 : buffer[0]? with
      | none => exact ⟨none, rfl, fun _ _ h => by cases h⟩
      | some b0 =>
        cases h1 : buffer[1]? with
        | none => exact ⟨none, rfl, fun _ _ h => by cases h⟩
        | some b1 =>
          dsimp only
          cases h2 : (List.drop 2 buffer)[0]? with
          | none => exact ⟨none, rfl, fun _ _ h => by cases h⟩
          | some t =>
            dsimp only
            cases h3 : (if t &&& 31 = 7 then
                rtp_call_sps (garbage k) (List.drop 2 buffer) ((b0 <<< 8 + b1) % 65536) st
              else some st) with
            | none => exact ⟨none, rfl, fun _ _ h => by cases h⟩
            | some st1 =>
              dsimp only
              have hpp := hp b0 b1
              have e1 : i32 (tot - 2) = tot - 2 := i32_eq_self (by omega) (by omega)
              have e2 : i32 (tot - (2 : Int) - (((b0 <<< 8 + b1) % 65536 : Nat) : Int)) =
                  tot - (2 : Int) - (((b0 <<< 8 + b1) % 65536 : Nat) : Int) :=
                i32_eq_self (by omega) (by omega)
              rw [e1, e2]
              obtain ⟨r, hr, hk⟩ := ih (k + 1)
                (tot - (2 : Int) - (((b0 <<< 8 + b1) % 65536 : Nat) : Int))
                (List.drop ((b0 <<< 8 + b1) % 65536) (List.drop 2 buffer)) st1
                (by omega) (by push_cast at hfuel ⊢; omega) (by omega)
              refine ⟨r, hr, ?_⟩
              intro st2 k2 hr2
              obtain ⟨ha, hb⟩ := hk st2 k2 hr2
              refine ⟨fun h => absurd htot (by omega), fun _ => ?_⟩
              by_cases hneg : tot - (2 : Int) - (((b0 <<< 8 + b1) % 65536 : Nat) : Int) ≤ 0
              · have := ha hneg
                subst this
                push_cast
                omega
              · have := hb (by omega)
                push_cast at this ⊢
                omega
    · unfold rtp_stap_run
      rw [if_neg htot]
      refine ⟨some (st, k), rfl, ?_⟩
      intro st1 k1 h
      simp only [Option.some.injEq, Prod.mk.injEq] at h
      obtain ⟨_, rfl⟩ := h
      exact ⟨fun _ => rfl, fun h => absurd h htot⟩

/-- A larger budget does not change a finished run. -/
theorem rtp_stap_run_mono (garbage : Nat → Nat) :
    ∀ (fuel fuel1 k : Nat) (tot : Int) (buffer : List Nat) (st : RtpLocals)
      (r : Option (RtpLocals × Nat)), fuel ≤ fuel1 →
      rtp_stap_run garbage fuel k tot buffer st = some r →
      rtp_stap_run garbage fuel1 k tot buffer st = some r := by
  intro fuel
  induction fuel with
  | zero => intro fuel1 k tot buffer st r _ h; cases h
  | succ fuel ih =>
    intro fuel1 k tot buffer st r hle h
    obtain ⟨fuel2, rfl⟩ : ∃ fuel2, fuel1 = fuel2 + 1 := ⟨fuel1 - 1, by omega⟩
    rw [rtp_stap_run] at h ⊢
    by_cases htot : tot > 0
    · rw [if_pos htot] at h ⊢
      cases h0 : buffer[0]? with
      | none => rw [h0] at h; exact h
      | some b0 =>
        cases h1 : buffer[1]? with
        | none => rw [h0, h1] at h; exact h
        | some b1 =>
          rw [h0, h1] at h
          dsimp only at h ⊢
          cases h2 : (List.drop 2 buffer)[0]? with
          | none => rw [h2] at h; exact h
          | some t =>
            rw [h2] at h
            dsimp only at h ⊢
            cases h3 : (if t &&& 31 = 7 then
                rtp_call_sps (garbage k) (List.drop 2 buffer) ((b0 <<< 8 + b1) % 65536) st
              else some st) with
            | none => rw [h3] at h; exact h
            | some st1 =>
              rw [h3] at h
              dsimp only at h ⊢
              exact ih _ _ _ _ _ _ (by omega) h
    · rw [if_neg htot] at h ⊢
      exact h

/-- C18: for every accepted `nal_size` (4 to 1499) the record loop of
`parse_rtp_video`, started as the code starts it with `tot = nal_size - 1`,
terminates: a budget of `ceil((nal_size - 1) / 2)` iterations and the final
test already gives a result, on every buffer, so the loop visits at most
`ceil((nal_size - 1) / 2)` records, which is at most 749; `tot` starts at
`nal_size - 1` and every iteration that completes lowers it by `2 + psize`,
at least 2. The loop of `parse_rtp_video` is the same run with the count
forgotten. -/
theorem rtp_stap_loop_terminates (garbage : Nat → Nat) (nal_size : Nat) (buffer : List Nat)
    (st : RtpLocals) (h4 : 4 ≤ nal_size) (h1500 : nal_size < 1500) :
    (rtp_stap_run garbage ((nal_size - 1 + 1) / 2 + 1) 0 (i32 ((nal_size : Int) - 1))
        buffer st).isSome = true ∧
    rtp_stap_run garbage nal_size 0 (i32 ((nal_size : Int) - 1)) buffer st =
      rtp_stap_run garbage ((nal_size - 1 + 1) / 2 + 1) 0 (i32 ((nal_size : Int) - 1))
        buffer st ∧
    rtp_stap_loop garbage nal_size 0 (i32 ((nal_size : Int) - 1)) buffer st =
      (rtp_stap_run garbage nal_size 0 (i32 ((nal_size : Int) - 1)) buffer st).bind
        (fun r => r.map Prod.fst) ∧
    (∀ st1 k, rtp_stap_run garbage nal_size 0 (i32 ((nal_size : Int) - 1)) buffer st =
        some (some (st1, k)) → k ≤ (nal_size - 1 + 1) / 2) ∧
    (nal_size - 1 + 1) / 2 ≤ 749 ∧
    i32 ((nal_size : Int) - 1) = (nal_size : Int) - 1 ∧
    (∀ (fuel k : Nat) (tot : Int) (b0 b1 : Nat) (rest : List Nat) (st1 : RtpLocals),
      0 < tot → tot < 2 ^ 31 →
      rtp_stap_run garbage (fuel + 1) k tot (b0 :: b1 :: rest) st1 = some none ∨
      ∃ st2, rtp_stap_run garbage (fuel + 1) k tot (b0 :: b1 :: rest) st1 =
        rtp_stap_run garbage fuel (k + 1)
          (tot - ((2 : Int) + ((((b0 <<< 8) + b1) % 65536 : Nat) : Int)))
          (rest.drop (((b0 <<< 8) + b1) % 65536)) st2) := by
  have etot : i32 ((nal_size : Int) - 1) = (nal_size : Int) - 1 :=
    i32_eq_self (by omega) (by omega)
  obtain ⟨r, hr, hk⟩ := rtp_stap_run_bound garbage ((nal_size - 1 + 1) / 2 + 1) 0
    ((nal_size : Int) - 1) buffer st (by omega) (by push_cast; omega) (by omega)
  have hfull := rtp_stap_run_mono garbage _ nal_size 0 _ buffer st r (by omega) hr
  refine ⟨?_, ?_, rtp_stap_run_agrees _ _ _ _ _ _, ?_, by omega, etot,
    fun fuel k tot b0 b1 rest st1 h0 h1 => rtp_stap_run_step garbage fuel k tot b0 b1 rest st1 h0 h1⟩
  · rw [etot, hr]; rfl
  · rw [etot, hr, hfull]
  · intro st1 k h
    rw [etot, hfull] at h
    have := (hk st1 k (Option.some.inj h)).2 (by omega)
    push_cast at this
    omega

theorem rtp_stap_loop_terminates_witness :
    (rtp_stap_run (fun _ => 0) ((14 - 1 + 1) / 2 + 1) 0 (i32 (((14 : Nat) : Int) - 1))
        [0, 7, 0x67, 66, 0, 0x1e, 248, 88, 136, 0, 2, 0x68, 0xce] ⟨false, 0, 0, 32⟩).isSome
      = true ∧
    rtp_stap_run (fun _ => 0) 14 0 (i32 (((14 : Nat) : Int) - 1))
        [0, 7, 0x67, 66, 0, 0x1e, 248, 88, 136, 0, 2, 0x68, 0xce] ⟨false, 0, 0, 32⟩ =
      rtp_stap_run (fun _ => 0) ((14 - 1 + 1) / 2 + 1) 0 (i32 (((14 : Nat) : Int) - 1))
        [0, 7, 0x67, 66, 0, 0x1e, 248, 88, 136, 0, 2, 0x68, 0xce] ⟨false, 0, 0, 32⟩ :=
  ⟨(rtp_stap_loop_terminates (fun _ => 0) 14
      [0, 7, 0x67, 66, 0, 0x1e, 248, 88, 136, 0, 2, 0x68, 0xce] ⟨false, 0, 0, 32⟩
      (by decide) (by decide)).1,
   (rtp_stap_loop_terminates (fun _ => 0) 14
      [0, 7, 0x67, 66, 0, 0x1e, 248, 88, 136, 0, 2, 0x68, 0xce] ⟨false, 0, 0, 32⟩
      (by decide) (by decide)).2.1⟩

/-! ## Extending the buffer -/

/-- A bit that is inside the buffer is not changed by bytes added after it. -/
theorem getbit_append {base : List Nat} (more : List Nat) {o b : Nat}
    (h : h264_eg_getbit base o = some b) : h264_eg_getbit (base ++ more) o = some b := by
  unfold h264_eg_getbit at h ⊢
  cases hb : base[o >>> 3]? with
  | none => rw [hb] at h; cases h
  | some x =>
    have hlt : o >>> 3 < base.length := (List.getElem?_eq_some.mp hb).1
    rw [List.getElem?_append_left hlt, hb]
    rw [hb] at h
    exact h

theorem eg_zeros_le {bit bit1 : Nat → Option Nat}
    (hbit : ∀ o b, bit o = some b → bit1 o = some b) :
    ∀ (fuel o z : Nat) (r : Nat × Nat), eg_zeros bit fuel o z = some r →
      eg_zeros bit1 fuel o z = some r := by
  intro fuel
  induction fuel with
  | zero => intro o z r h; cases h
  | succ fuel ih =>
    intro o z r h
    rw [eg_zeros] at h ⊢
    cases hb : bit o with
    | none => rw [hb] at h; cases h
    | some b =>
      rw [hb] at h
      rw [hbit o b hb]
      dsimp only at h ⊢
      by_cases hz : b = 0
      · rw [if_pos hz] at h ⊢
        exact ih _ _ _ h
      · rw [if_neg hz] at h ⊢
        exact h

theorem eg_bits_le {bit bit1 : Nat → Option Nat}
    (hbit : ∀ o b, bit o = some b → bit1 o = some b) :
    ∀ (i o res : Nat) (r : Nat × Nat), eg_bits bit i o res = some r →
      eg_bits bit1 i o res = some r := by
  intro i
  induction i with
  | zero => intro o res r h; exact h
  | succ i ih =>
    intro o res r h
    rw [eg_bits] at h ⊢
    cases hb : bit o with
    | none => rw [hb] at h; cases h
    | some b =>
      rw [hb] at h
      rw [hbit o b hb]
      dsimp only at h ⊢
      by_cases hz : 32 ≤ i
      · rw [if_pos hz] at h; cases h
      · rw [if_neg hz] at h ⊢
        exact ih _ _ _ h

theorem eg_decode_core_le {bit bit1 : Nat → Option Nat}
    (hbit : ∀ o b, bit o = some b → bit1 o = some b) (o : Nat) (r : Nat × Nat)
    (h : eg_decode_core bit o = some r) : eg_decode_core bit1 o = some r := by
  unfold eg_decode_core at h ⊢
  cases hz : eg_zeros bit (2 ^ 32) o 0 with
  | none => rw [hz] at h; cases h
  | some p =>
    obtain ⟨o1, z⟩ := p
    rw [hz] at h
    rw [eg_zeros_le hbit _ _ _ _ hz]
    dsimp only at h ⊢
    by_cases h32 : 32 ≤ z
    · rw [if_pos h32] at h; cases h
    · rw [if_neg h32] at h ⊢
      cases hb : eg_bits bit z o1 (u32 (1 <<< z)) with
      | none => rw [hb] at h; cases h
      | some q =>
        rw [hb] at h
        rw [eg_bits_le hbit _ _ _ _ hb]
        exact h

theorem h264_eg_decode_append {base : List Nat} (more : List Nat) {o : Nat} {r : Nat × Nat}
    (h : h264_eg_decode base o = some r) : h264_eg_decode (base ++ more) o = some r :=
  eg_decode_core_le (fun _ _ hb => getbit_append more hb) o r h

theorem getbit_inc_append {base : List Nat} (more : List Nat) {o : Nat} {r : Nat × Nat}
    (h : getbit_inc base o = some r) : getbit_inc (base ++ more) o = some r := by
  unfold getbit_inc at h ⊢
  cases hb : h264_eg_getbit base o with
  | none => rw [hb] at h; cases h
  | some b =>
    rw [hb] at h
    rw [getbit_append more hb]
    exact h

theorem h264_eg_getbits_append {base : List Nat} (more : List Nat) {o : Nat} {num : Int}
    {r : Nat × Nat} (h : h264_eg_getbits base o num = some r) :
    h264_eg_getbits (base ++ more) o num = some r := by
  unfold h264_eg_getbits at h ⊢
  cases hb : eg_bits (h264_eg_getbit base) num.toNat o 0 with
  | none => rw [hb] at h; cases h
  | some q =>
    rw [hb] at h
    rw [eg_bits_le (fun _ _ hb => getbit_append more hb) _ _ _ _ hb]
    exact h

theorem sps_skip_ref_frames_append {base : List Nat} (more : List Nat) :
    ∀ (n o r : Nat), sps_skip_ref_frames base n o = some r →
      sps_skip_ref_frames (base ++ more) n o = some r := by
  intro n
  induction n with
  | zero => intro o r h; exact h
  | succ n ih =>
    intro o r h
    rw [sps_skip_ref_frames] at h ⊢
    cases hd : h264_eg_decode base o with
    | none => rw [hd] at h; cases h
    | some q =>
      obtain ⟨v, o1⟩ := q
      rw [hd] at h
      rw [h264_eg_decode_append more hd]
      exact ih _ _ h

theorem ite_some_le {c : Prop} [Decidable c] {α : Type} {a a1 b : Option α} {r : α}
    (ha : a = some r → a1 = some r) (h : (if c then a else b) = some r) :
    (if c then a1 else b) = some r := by
  by_cases hc : c
  · rw [if_pos hc] at h ⊢; exact ha h
  · rw [if_neg hc] at h ⊢; exact h

theorem sps_profile_append (g profile : Nat) {base : List Nat} (more : List Nat) {o : Nat}
    {r : Option (Nat × Nat × Nat)} (h : sps_profile g profile base o = some r) :
    sps_profile g profile (base ++ more) o = some r := by
  unfold sps_profile at h ⊢
  by_cases h66 : profile ≠ 66
  · rw [if_pos h66] at h ⊢
    split
    · rename_i hp
      rw [if_pos hp] at h
      cases h1 : h264_eg_decode base o with
      | none => rw [h1] at h; cases h
      | some q1 =>
        obtain ⟨c, o1⟩ := q1
        rw [h1] at h
        rw [h264_eg_decode_append more h1]
        dsimp only at h ⊢
        cases h2 : (if c = 3 then getbit_inc base o1 else some (0, o1)) with
        | none => rw [h2] at h; cases h
        | some q2 =>
          obtain ⟨s, o2⟩ := q2
          rw [h2] at h
          rw [ite_some_le (getbit_inc_append more) h2]
          dsimp only at h ⊢
          cases h3 : h264_eg_decode base o2 with
          | none => rw [h3] at h; cases h
          | some q3 =>
            obtain ⟨bl, o3⟩ := q3
            rw [h3] at h
            rw [h264_eg_decode_append more h3]
            dsimp only at h ⊢
            cases h4 : h264_eg_decode base o3 with
            | none => rw [h4] at h; cases h
            | some q4 =>
              obtain ⟨bc, o4⟩ := q4
              rw [h4] at h
              rw [h264_eg_decode_append more h4]
              dsimp only at h ⊢
              cases h5 : getbit_inc base o4 with
              | none => rw [h5] at h; cases h
              | some q5 =>
                obtain ⟨qp, o5⟩ := q5
                rw [h5] at h
                rw [getbit_inc_append more h5]
                dsimp only at h ⊢
                cases h6 : getbit_inc base o5 with
                | none => rw [h6] at h; cases h
                | some q6 =>
                  obtain ⟨m, o6⟩ := q6
                  rw [h6] at h
                  rw [getbit_inc_append more h6]
                  dsimp only at h ⊢
                  by_cases hm : m ≠ 0
                  · rw [if_pos hm] at h ⊢
                    cases h7 : (if c ≠ 3 then h264_eg_getbits base o6 8
                        else h264_eg_getbits base o6 12) with
                    | none => rw [h7] at h; cases h
                    | some q7 =>
                      obtain ⟨v, o7⟩ := q7
                      rw [h7] at h
                      have h7a : (if c ≠ 3 then h264_eg_getbits (base ++ more) o6 8
                          else h264_eg_getbits (base ++ more) o6 12) = some (v, o7) := by
                        by_cases hc : c ≠ 3
                        · rw [if_pos hc] at h7 ⊢; exact h264_eg_getbits_append more h7
                        · rw [if_neg hc] at h7 ⊢; exact h264_eg_getbits_append more h7
                      rw [h7a]
                      exact h
                  · rw [if_neg hm] at h ⊢
                    exact h
    · rename_i hp
      rw [if_neg hp] at h
      exact h
  · rw [if_neg h66] at h ⊢
    exact h

theorem sps_pic_order_cnt_1_append {base : List Nat} (more : List Nat) {o r : Nat}
    (h : sps_pic_order_cnt_1 base o = some r) :
    sps_pic_order_cnt_1 (base ++ more) o = some r := by
  unfold sps_pic_order_cnt_1 at h ⊢
  cases h1 : getbit_inc base o with
  | none => rw [h1] at h; cases h
  | some q1 =>
    obtain ⟨b, o1⟩ := q1
    rw [h1] at h
    rw [getbit_inc_append more h1]
    dsimp only at h ⊢
    cases h2 : h264_eg_decode base o1 with
    | none => rw [h2] at h; cases h
    | some q2 =>
      obtain ⟨v2, o2⟩ := q2
      rw [h2] at h
      rw [h264_eg_decode_append more h2]
      dsimp only at h ⊢
      cases h3 : h264_eg_decode base o2 with
      | none => rw [h3] at h; cases h
      | some q3 =>
        obtain ⟨v3, o3⟩ := q3
        rw [h3] at h
        rw [h264_eg_decode_append more h3]
        dsimp only at h ⊢
        cases h4 : h264_eg_decode base o3 with
        | none => rw [h4] at h; cases h
        | some q4 =>
          obtain ⟨n, o4⟩ := q4
          rw [h4] at h
          rw [h264_eg_decode_append more h4]
          dsimp only at h ⊢
          exact sps_skip_ref_frames_append more _ _ _ h

theorem sps_pic_order_cnt_append {base : List Nat} (more : List Nat) {o r : Nat}
    (h : sps_pic_order_cnt base o = some r) :
    sps_pic_order_cnt (base ++ more) o = some r := by
  unfold sps_pic_order_cnt at h ⊢
  cases h1 : h264_eg_decode base o with
  | none => rw [h1] at h; cases h
  | some q1 =>
    obtain ⟨t, o1⟩ := q1
    rw [h1] at h
    rw [h264_eg_decode_append more h1]
    dsimp only at h ⊢
    by_cases h0 : i32 (t : Int) = 0
    · rw [if_pos h0] at h ⊢
      cases h2 : h264_eg_decode base o1 with
      | none => rw [h2] at h; cases h
      | some q2 =>
        rw [h2] at h
        rw [h264_eg_decode_append more h2]
        exact h
    · rw [if_neg h0] at h ⊢
      by_cases h1 : i32 (t : Int) = 1
      · rw [if_pos h1] at h ⊢
        exact sps_pic_order_cnt_1_append more h
      · rw [if_neg h1] at h ⊢
        exact h

theorem sps_cropping_append {base : List Nat} (more : List Nat) {o : Nat}
    {r : Int × Int × Int × Int × Nat} (h : sps_cropping base o = some r) :
    sps_cropping (base ++ more) o = some r := by
  unfold sps_cropping at h ⊢
  cases h1 : getbit_inc base o with
  | none => rw [h1] at h; cases h
  | some q1 =>
    obtain ⟨f, o1⟩ := q1
    rw [h1] at h
    rw [getbit_inc_append more h1]
    dsimp only at h ⊢
    by_cases hf : f ≠ 0
    · rw [if_pos hf] at h ⊢
      cases h2 : h264_eg_decode base o1 with
      | none => rw [h2] at h; cases h
      | some q2 =>
        obtain ⟨v2, o2⟩ := q2
        rw [h2] at h
        rw [h264_eg_decode_append more h2]
        dsimp only at h ⊢
        cases h3 : h264_eg_decode base o2 with
        | none => rw [h3] at h; cases h
        | some q3 =>
          obtain ⟨v3, o3⟩ := q3
          rw [h3] at h
          rw [h264_eg_decode_append more h3]
          dsimp only at h ⊢
          cases h4 : h264_eg_decode base o3 with
          | none => rw [h4] at h; cases h
          | some q4 =>
            obtain ⟨v4, o4⟩ := q4
            rw [h4] at h
            rw [h264_eg_decode_append more h4]
            dsimp only at h ⊢
            cases h5 : h264_eg_decode base o4 with
            | none => rw [h5] at h; cases h
            | some q5 =>
              obtain ⟨v5, o5⟩ := q5
              rw [h5] at h
              rw [h264_eg_decode_append more h5]
              exact h
    · rw [if_neg hf] at h ⊢
      exact h

theorem sps_fields_append {base : List Nat} (more : List Nat) (c s : Nat) {o : Nat}
    (out : SpsPtrs) {r : Bool × SpsPtrs} (h : sps_fields base c s o out = some r) :
    sps_fields (base ++ more) c s o out = some r := by
  unfold sps_fields at h ⊢
  cases h1 : h264_eg_decode base o with
  | none => rw [h1] at h; cases h
  | some q1 =>
  obtain ⟨v1, o1⟩ := q1
  rw [h1] at h
  rw [h264_eg_decode_append more h1]
  dsimp only at h ⊢
  cases h2 : sps_pic_order_cnt base o1 with
  | none => rw [h2] at h; cases h
  | some o2 =>
  rw [h2] at h
  rw [sps_pic_order_cnt_append more h2]
  dsimp only at h ⊢
  cases h3 : h264_eg_decode base o2 with
  | none => rw [h3] at h; cases h
  | some q3 =>
  obtain ⟨v3, o3⟩ := q3
  rw [h3] at h
  rw [h264_eg_decode_append more h3]
  dsimp only at h ⊢
  cases h4 : getbit_inc base o3 with
  | none => rw [h4] at h; cases h
  | some q4 =>
  obtain ⟨v4, o4⟩ := q4
  rw [h4] at h
  rw [getbit_inc_append more h4]
  dsimp only at h ⊢
  cases h5 : h264_eg_decode base o4 with
  | none => rw [h5] at h; cases h
  | some q5 =>
  obtain ⟨w, o5⟩ := q5
  rw [h5] at h
  rw [h264_eg_decode_append more h5]
  dsimp only at h ⊢
  cases h6 : h264_eg_decode base o5 with
  | none => rw [h6] at h; cases h
  | some q6 =>
  obtain ⟨hh, o6⟩ := q6
  rw [h6] at h
  rw [h264_eg_decode_append more h6]
  dsimp only at h ⊢
  cases h7 : getbit_inc base o6 with
  | none => rw [h7] at h; cases h
  | some q7 =>
  obtain ⟨f, o7⟩ := q7
  rw [h7] at h
  rw [getbit_inc_append more h7]
  dsimp only at h ⊢
  cases h8 : (if f = 0 then getbit_inc base o7 else some (0, o7)) with
  | none => rw [h8] at h; cases h
  | some q8 =>
  obtain ⟨v8, o8⟩ := q8
  rw [h8] at h
  rw [ite_some_le (getbit_inc_append more) h8]
  dsimp only at h ⊢
  cases h9 : getbit_inc base o8 with
  | none => rw [h9] at h; cases h
  | some q9 =>
  obtain ⟨v9, o9⟩ := q9
  rw [h9] at h
  rw [getbit_inc_append more h9]
  dsimp only at h ⊢
  cases h10 : sps_cropping base o9 with
  | none => rw [h10] at h; cases h
  | some q10 =>
  obtain ⟨l, r1, t, b, o10⟩ := q10
  rw [h10] at h
  rw [sps_cropping_append more h10]
  dsimp only at h ⊢
  cases h11 : getbit_inc base o10 with
  | none => rw [h11] at h; cases h
  | some q11 =>
  obtain ⟨v11, o11⟩ := q11
  rw [h11] at h
  rw [getbit_inc_append more h11]
  exact h

theorem h264_eg_decode_nil (o : Nat) : h264_eg_decode [] o = none := by
  unfold h264_eg_decode eg_decode_core
  rw [show (2 : Nat) ^ 32 = (2 ^ 32 - 1) + 1 by norm_num, eg_zeros]
  rfl

/-- A parse of `h264_parse_sps` that is defined on a buffer gives the same
result when further bytes follow the buffer, whatever length is passed. -/
theorem h264_parse_sps_append (g : Nat) {buffer : List Nat} (more : List Nat)
    (length length1 : Nat) (out : SpsPtrs) {r : Bool × SpsPtrs}
    (h : h264_parse_sps g buffer length out = some r) :
    h264_parse_sps g (buffer ++ more) length1 out = some r := by
  unfold h264_parse_sps at h ⊢
  cases h1 : buffer[1]? with
  | none => rw [h1] at h; cases h
  | some profile =>
    have hlt : 1 < buffer.length := (List.getElem?_eq_some.mp h1).1
    rw [h1] at h
    rw [List.getElem?_append_left hlt, h1]
    dsimp only at h ⊢
    by_cases h4 : 4 ≤ buffer.length
    · rw [List.drop_append_of_le_length h4]
      cases h2 : h264_eg_decode (List.drop 4 buffer) 0 with
      | none => rw [h2] at h; cases h
      | some q2 =>
        obtain ⟨i, o1⟩ := q2
        rw [h2] at h
        rw [h264_eg_decode_append more h2]
        dsimp only at h ⊢
        cases h3 : sps_profile g profile (List.drop 4 buffer) o1 with
        | none => rw [h3] at h; cases h
        | some q3 =>
          rw [h3] at h
          rw [sps_profile_append g profile more h3]
          cases q3 with
          | none => exact h
          | some q =>
            obtain ⟨c, s, o2⟩ := q
            dsimp only at h ⊢
            exact sps_fields_append more c s _ h
    · rw [List.drop_eq_nil_of_le (by omega), h264_eg_decode_nil] at h
      cases h

/-! ## The last SPS record of an aggregation packet -/

/-- The call of `h264_parse_sps` on a record inside a packet, compared with the
call on the record alone on fresh locals: the same flag, and on success the
same three values. -/
theorem rtp_call_sps_append (g : Nat) (nal more : List Nat) (len1 : Nat) (st : RtpLocals)
    (hdef : (h264_parse_sps g nal nal.length ⟨some 0, some 0, some 32⟩).isSome = true) :
    ∃ st1 sf, rtp_call_sps g (nal ++ more) len1 st = some st1 ∧
      rtp_call_sps g nal nal.length ⟨false, 0, 0, 32⟩ = some sf ∧
      st1.bfind = sf.bfind ∧ (sf.bfind = true → st1 = sf) := by
  rcases h264_parse_sps_shape g nal with h0 | ⟨i, h1⟩ | ⟨w, h, i, h2⟩
  · rw [h0] at hdef
    cases hdef
  · have ha := h264_parse_sps_append g more nal.length len1 _
      (h1 nal.length ⟨some st.width, some st.height, some st.sps_id⟩)
    refine ⟨⟨false, st.width, st.height, i⟩, ⟨false, 0, 0, i⟩, ?_, ?_, rfl, fun hb => by cases hb⟩
    · unfold rtp_call_sps
      rw [ha]
      rfl
    · unfold rtp_call_sps
      rw [h1]
      rfl
  · have ha := h264_parse_sps_append g more nal.length len1 _
      (h2 nal.length ⟨some st.width, some st.height, some st.sps_id⟩)
    refine ⟨⟨true, w, h, i⟩, ⟨true, w, h, i⟩, ?_, ?_, rfl, fun _ => rfl⟩
    · unfold rtp_call_sps
      rw [ha]
      rfl
    · unfold rtp_call_sps
      rw [h2]
      rfl

theorem stap_payload_cons_length (nal : List Nat) (rest : List (List Nat)) :
    (stap_payload (nal :: rest)).length = 2 + nal.length + (stap_payload rest).length := by
  simp only [stap_payload, stap_record, List.length_append, List.length_cons]
  omega

/-- The record loop on a well-formed payload: it finishes, and the locals it
leaves agree with those of the call on the last SPS record alone. -/
theorem rtp_stap_loop_records (garbage : Nat → Nat) :
    ∀ (records : List (List Nat)) (fuel k : Nat) (tot : Int) (st : RtpLocals),
      tot = ((stap_payload records).length : Int) →
      (stap_payload records).length < fuel →
      (stap_payload records).length < 1500 →
      stap_wellformed garbage k records = true →
      ∃ st1, rtp_stap_loop garbage fuel k tot (stap_payload records) st = some st1 ∧
        match last_sps k records with
        | none => st1 = st
        | some (j, nal) =>
          ∃ sf, rtp_call_sps (garbage j) nal nal.length ⟨false, 0, 0, 32⟩ = some sf ∧
            st1.bfind = sf.bfind ∧ (sf.bfind = true → st1 = sf) := by
  intro records
  induction records with
  | nil =>
    intro fuel k tot st htot hfuel _ _
    obtain ⟨f, rfl⟩ : ∃ f, fuel = f + 1 := ⟨fuel - 1, by simp [stap_payload] at hfuel; omega⟩
    refine ⟨st, rtp_stap_loop_done garbage f k tot _ st ?_, rfl⟩
    rw [htot]
    simp [stap_payload]
  | cons nal rest ih =>
    intro fuel k tot st htot hfuel hsmall hwf
    rw [stap_payload_cons_length] at htot hfuel hsmall
    obtain ⟨f, rfl⟩ : ∃ f, fuel = f + 1 := ⟨fuel - 1, by omega⟩
    rw [stap_wellformed, Bool.and_eq_true, Bool.and_eq_true] at hwf
    obtain ⟨⟨hne, hsps⟩, hrest⟩ := hwf
    cases nal with
    | nil => simp at hne
    | cons t body =>
      have hstep := rtp_stap_loop_step garbage f k tot ((t :: body).length / 256)
        ((t :: body).length % 256) t body (stap_payload rest) st (by omega)
        (Nat.div_add_mod' _ _) (by omega)
      have htot1 : i32 (i32 (tot - 2) - ((t :: body).length : Nat)) =
          ((stap_payload rest).length : Int) := by
        rw [i32_eq_self (x := tot - 2) (by omega) (by omega)]
        rw [i32_eq_self (by omega) (by omega)]
        omega
      rw [htot1] at hstep
      have hpay : stap_payload ((t :: body) :: rest) =
          ((t :: body).length / 256) :: ((t :: body).length % 256) ::
            (t :: body ++ stap_payload rest) := rfl
      rw [hpay, hstep]
      by_cases ht : t &&& 0x1f = 7
      · have hs : is_sps (t :: body) = true := by simp [is_sps, ht]
        rw [hs] at hsps
        simp only [Bool.not_true, Bool.false_or] at hsps
        obtain ⟨st1, sf, hc1, hc2, hb, hsf⟩ :=
          rtp_call_sps_append (garbage k) (t :: body) (stap_payload rest) (t :: body).length st
            hsps
        rw [if_pos ht, hc1]
        obtain ⟨st2, hl, hm⟩ := ih f (k + 1) _ st1 rfl (by omega) (by omega) hrest
        refine ⟨st2, hl, ?_⟩
        rw [last_sps]
        cases hlast : last_sps (k + 1) rest with
        | some x =>
          rw [hlast] at hm
          exact hm
        | none =>
          rw [hlast] at hm
          dsimp only at hm ⊢
          rw [if_pos hs]
          subst hm
          exact ⟨sf, hc2, hb, hsf⟩
      · have hs : is_sps (t :: body) = false := by simp [is_sps, ht]
        rw [if_neg ht]
        obtain ⟨st2, hl, hm⟩ := ih f (k + 1) _ st rfl (by omega) (by omega) hrest
        refine ⟨st2, hl, ?_⟩
        rw [last_sps]
        cases hlast : last_sps (k + 1) rest with
        | some x =>
          rw [hlast] at hm
          exact hm
        | none =>
          rw [hlast] at hm
          dsimp only at hm ⊢
          rw [hs]
          exact hm

/-- The report of `parse_rtp_video` for the NAL alone, from the locals the
call on fresh locals leaves. -/
theorem sps_alone_outcome_eq (g : Nat) (nal : List Nat) (out1 : RtpPtrs) (sf : RtpLocals)
    (h : rtp_call_sps g nal nal.length ⟨false, 0, 0, 32⟩ = some sf) :
    sps_alone_outcome g nal out1 =
      if sf.bfind = true ∧ out1.p_width.isSome = true ∧ out1.p_height.isSome = true then
        some (sf.bfind, { out1 with p_width := some sf.width, p_height := some sf.height,
                                    p_sps_id := store out1.p_sps_id sf.sps_id })
      else some (sf.bfind, out1) := by
  unfold rtp_call_sps at h
  unfold sps_alone_outcome
  rcases h264_parse_sps_shape g nal with h0 | ⟨i, h1⟩ | ⟨w, hh, i, h2⟩
  · rw [h0] at h
    cases h
  · rw [h1] at h ⊢
    simp only [Option.some.injEq] at h
    subst h
    simp
  · rw [h2] at h ⊢
    simp only [Option.some.injEq] at h
    subst h
    by_cases hp : out1.p_width.isSome = true ∧ out1.p_height.isSome = true
    · simp [store, hp]
    · simp [store, hp]

/-- The last SPS record decides, on packets where the parser stays inside its
records: for every aggregation packet of valid size (low 5 bits of byte 0 are
24) whose payload is exactly a sequence of records, each a 2-byte big-endian
length followed by a NAL of that length with at least its header byte, and on
whose NALs of type 7 `h264_parse_sps` has a defined result alone (it reads no
byte outside the record), the result of `parse_rtp_video` is that of the last
NAL of type 7 alone: failure with only the NAL type stored when there is none
or when `h264_parse_sps` fails on it, and its width, height and sps_id when
`h264_parse_sps` succeeds on it. -/
theorem stap_last_sps_inside_records (garbage : Nat → Nat) (hdr : Nat)
    (records : List (List Nat)) (nal_size : Nat) (rout : RtpPtrs)
    (h24 : hdr &&& 0x1f = 24)
    (hn : nal_size = (hdr :: stap_payload records).length)
    (h4 : 4 ≤ nal_size) (hsize : nal_size < 1500)
    (hwf : stap_wellformed garbage 0 records = true) :
    parse_rtp_video garbage (hdr :: stap_payload records) nal_size rout =
      match last_sps 0 records with
      | none => some (false, { rout with p_rtp_type := store rout.p_rtp_type 24 })
      | some (k, nal) =>
        sps_alone_outcome (garbage k) nal { rout with p_rtp_type := store rout.p_rtp_type 24 } := by
  simp only [List.length_cons] at hn
  have htot0 : i32 ((nal_size : Int) - 1) = ((stap_payload records).length : Int) := by
    rw [i32_eq_self (by omega) (by omega)]
    omega
  obtain ⟨st1, hloop, hm⟩ := rtp_stap_loop_records garbage records nal_size 0
    ((stap_payload records).length : Int) ⟨false, 0, 0, 32⟩ rfl (by omega) (by omega) hwf
  unfold parse_rtp_video
  rw [if_neg (by omega)]
  simp only [List.getElem?_cons_zero, h24, List.drop_succ_cons, List.drop_zero, htot0]
  rw [if_pos trivial, hloop, if_neg (show ¬ ((24 : Nat) = 7) by decide)]
  dsimp only
  cases hlast : last_sps 0 records with
  | none =>
    rw [hlast] at hm
    subst hm
    simp
  | some x =>
    obtain ⟨k, nal⟩ := x
    rw [hlast] at hm
    obtain ⟨sf, hc, hb, hsf⟩ := hm
    dsimp only
    rw [sps_alone_outcome_eq (garbage k) nal _ sf hc]
    by_cases hbf : sf.bfind = true
    · rw [hsf hbf]
    · have h1 : st1.bfind = false := by rw [hb]; simpa using hbf
      have h2 : sf.bfind = false := by simpa using hbf
      simp [h1, h2]

/-- Two packets inside that domain: a failed SPS record followed by a valid one
gives the valid one's 176 x 128 and sps_id 0; a valid SPS record followed by
one with an unsupported profile gives failure with only the NAL type stored. -/
theorem stap_last_sps_inside_records_examples :
    parse_rtp_video (fun _ => 0)
        (24 :: stap_payload [[0x67, 77, 0, 0x1e, 0x20], [0x67, 66, 0, 0x1e, 248, 88, 136]]) 17
        ⟨some 0, some 1, some 2, some 3⟩ =
      some (true, ⟨some 24, some 176, some 128, some 0⟩) ∧
    parse_rtp_video (fun _ => 0)
        (24 :: stap_payload [[0x67, 66, 0, 0x1e, 248, 88, 136], [0x67, 77, 0, 0x1e, 0x20]]) 17
        ⟨some 0, some 1, some 2, some 3⟩ =
      some (false, ⟨some 24, some 1, some 2, some 3⟩) :=
  ⟨(stap_last_sps_inside_records (fun _ => 0) 24
      [[0x67, 77, 0, 0x1e, 0x20], [0x67, 66, 0, 0x1e, 248, 88, 136]] 17
      ⟨some 0, some 1, some 2, some 3⟩ (by decide) (by decide) (by decide) (by decide)
      (by with_unfolding_all rfl)).trans (by with_unfolding_all rfl),
   (stap_last_sps_inside_records (fun _ => 0) 24
      [[0x67, 66, 0, 0x1e, 248, 88, 136], [0x67, 77, 0, 0x1e, 0x20]] 17
      ⟨some 0, some 1, some 2, some 3⟩ (by decide) (by decide) (by decide) (by decide)
      (by with_unfolding_all rfl)).trans (by with_unfolding_all rfl)⟩

/-- C19 (defect in the code): `parse_rtp_video` passes the declared length of
an SPS record to `h264_parse_sps`, which never consults it, so the parse of a
record runs on into the records behind it. In the 13-byte packet
`18 00 05 67 42 00 1e f8 00 03 65 58 88` the two records fill the payload
exactly and the last (and only) NAL of type 7 is `67 42 00 1e f8`. Alone, its
parse asks for bit 8 of its single field byte, outside the record, and has no
result; inside the packet the same call reads the length bytes and the NAL of
the next record as SPS fields, and `parse_rtp_video` returns success with
1780416 x 64, which is not a result of `h264_parse_sps` on that record alone. -/
theorem stap_sps_read_across_records :
    24 :: stap_payload [[0x67, 66, 0, 0x1e, 0xf8], [0x65, 0x58, 0x88]] =
      [24, 0, 5, 0x67, 66, 0, 0x1e, 0xf8, 0, 3, 0x65, 0x58, 0x88] ∧
    last_sps 0 [[0x67, 66, 0, 0x1e, 0xf8], [0x65, 0x58, 0x88]] =
      some (0, [0x67, 66, 0, 0x1e, 0xf8]) ∧
    Holds (h264_eg_getbit (List.drop 4 [0x67, 66, 0, 0x1e, 0xf8])) 0 [1, 1, 1, 1, 1, 0, 0, 0] ∧
    h264_eg_getbit (List.drop 4 [0x67, 66, 0, 0x1e, 0xf8]) 8 = none ∧
    h264_parse_sps 0 [0x67, 66, 0, 0x1e, 0xf8] 5 ⟨some 0, some 0, some 32⟩ = none ∧
    sps_alone_outcome 0 [0x67, 66, 0, 0x1e, 0xf8] ⟨some 24, some 0, some 0, some 32⟩ = none ∧
    h264_parse_sps 0 ([0x67, 66, 0, 0x1e, 0xf8] ++ stap_payload [[0x65, 0x58, 0x88]]) 5
        ⟨some 0, some 0, some 32⟩ = some (true, ⟨some 1780416, some 64, some 0⟩) ∧
    parse_rtp_video (fun _ => 0) [24, 0, 5, 0x67, 66, 0, 0x1e, 0xf8, 0, 3, 0x65, 0x58, 0x88] 13
        ⟨some 0, some 0, some 0, some 32⟩ =
      some (true, ⟨some 24, some 1780416, some 64, some 0⟩) := by
  refine ⟨by decide, by decide, by decide, by decide, ?_, ?_, ?_, ?_⟩ <;> with_unfolding_all rfl

end H264
